import Mathlib

/-!
# Binary serialization of `cryptonote_basic.h`

A shallow embedding of the `do_serialize` members of
`src/cryptonote_core/cryptonote_basic.h`.  On the saving binary archive
(`binary_archive<true>`) every `do_serialize` becomes a function returning
`Option Bytes`, where `none` stands for `return false` and `some bs` for
`return true` after `bs` was appended to the stream.  On the loading binary
archive (`binary_archive<false>`) it becomes a `do_deserialize` that takes the
input and returns the value read together with the input that is left.

Machine integers are natural numbers; the only place where wrap-around can
occur (`key_offsets.size() - 1`) is reduced modulo `2 ^ 64` explicitly.
-/

set_option autoImplicit false

namespace cryptonote

/-! ## Primitive codec -/

/-- A byte string; each element stands for one `uint8_t`. -/
abbrev Bytes := List Nat

/-- Modelled from the spec: the "variable-length integer" of the primitive
codec (`serialize_varint` of `serialization/binary_archive.h`, which is not
among the sources).  Seven bits per byte, least significant group first, the
high bit set on every byte but the last.  The first argument bounds the
number of continuation bytes. -/
def write_varint_aux : Nat → Nat → Bytes
  | 0, i => [i]
  | fuel + 1, i => if i < 128 then [i] else (i % 128 + 128) :: write_varint_aux fuel (i / 128)

/-- Modelled from the spec: `ar.serialize_varint(v)` on the saving binary
archive (absent `serialization/binary_archive.h`). -/
def serialize_varint (i : Nat) : Bytes := write_varint_aux i i

/-- Modelled from the spec: `ar.serialize_int(v)` on the saving binary archive
(absent `serialization/binary_archive.h`): `width` bytes, little endian. -/
def serialize_int : Nat → Nat → Bytes
  | 0, _ => []
  | width + 1, v => (v % 256) :: serialize_int width (v / 256)

/-- Modelled from the spec: `ar.serialize_blob(buf, len)` on the saving binary
archive (absent `serialization/binary_archive.h`): the raw bytes of a POD
declared with `BLOB_SERIALIZER`. -/
def serialize_blob (b : Bytes) : Bytes := b

/-- Modelled from the spec: `HASH_SIZE` of the absent `crypto/hash.h`. -/
def HASH_SIZE : Nat := 32

/-- A `crypto::hash`: a POD of `HASH_SIZE` bytes. -/
abbrev hash := Bytes
/-- A `crypto::public_key`: a 32-byte POD. -/
abbrev public_key := Bytes
/-- A `crypto::key_image`: a 32-byte POD. -/
abbrev key_image := Bytes
/-- A `crypto::signature`: a 64-byte POD. -/
abbrev signature := Bytes

/-- Modelled from the spec: the element loop of the vector writer (absent
`serialization/vector.h`): each element in order, failing as soon as one
element fails. -/
def serialize_elements {α : Type} (f : α → Option Bytes) : List α → Option Bytes
  | [] => some []
  | e :: es => do
    let first ← f e
    let others ← serialize_elements f es
    pure (first ++ others)

/-- Modelled from the spec: `do_serialize(ar, v)` for a `std::vector<T>` on a
saving archive (absent `serialization/vector.h`): `ar.begin_array(v.size())`
writes the count, then the elements follow. -/
def serialize_vector {α : Type} (f : α → Option Bytes) (v : List α) : Option Bytes := do
  let elements ← serialize_elements f v
  pure (serialize_varint v.length ++ elements)

/-- Element writer of a `std::vector<uint64_t>`: `serialize_varint`. -/
def serialize_element_varint (e : Nat) : Option Bytes := some (serialize_varint e)

/-- Element writer of a `std::vector<uint8_t>`: one `serialize_int` byte. -/
def serialize_element_byte (e : Nat) : Option Bytes := some (serialize_int 1 e)

/-- Element writer of a vector of blob-serialized PODs. -/
def serialize_element_blob (e : Bytes) : Option Bytes := some (serialize_blob e)

/-- Modelled from the spec: `enum BLOB_TYPE` of the absent
`cryptonote_config.h`.  The header names four enumerators: the plain
dialect, the merge-mining dialect with the reduced header, the dialect that
always delegates signatures, and the Loki dialect.  Every other enumerator
is carried by its numeric code. -/
inductive BLOB_TYPE where
  | BLOB_TYPE_CRYPTONOTE
  | BLOB_TYPE_FORKNOTE2
  | BLOB_TYPE_CRYPTONOTE2
  | BLOB_TYPE_CRYPTONOTE_LOKI
  | BLOB_TYPE_OTHER (code : Nat)
  deriving DecidableEq, Repr

open BLOB_TYPE

/-! ## Outputs -/

structure txout_to_script where
  keys : List public_key
  script : Bytes
  deriving DecidableEq, Repr

structure txout_to_scripthash where
  hash : hash
  deriving DecidableEq, Repr

structure txout_to_key where
  key : public_key
  deriving DecidableEq, Repr

/-! ## Inputs -/

structure txin_gen where
  height : Nat
  deriving DecidableEq, Repr

structure txin_to_script where
  prev : hash
  prevout : Nat
  sigset : Bytes
  deriving DecidableEq, Repr

structure txin_to_scripthash where
  prev : hash
  prevout : Nat
  script : txout_to_script
  sigset : Bytes
  deriving DecidableEq, Repr

structure txin_to_key where
  amount : Nat
  key_offsets : List Nat
  k_image : key_image
  deriving DecidableEq, Repr

/-- The `boost::variant` of the four input types. -/
inductive txin_v where
  | gen (x : txin_gen)
  | to_script (x : txin_to_script)
  | to_scripthash (x : txin_to_scripthash)
  | to_key (x : txin_to_key)
  deriving DecidableEq, Repr

/-- The `boost::variant` of the three output targets. -/
inductive txout_target_v where
  | to_script (x : txout_to_script)
  | to_scripthash (x : txout_to_scripthash)
  | to_key (x : txout_to_key)
  deriving DecidableEq, Repr

structure tx_out where
  amount : Nat
  target : txout_target_v
  deriving DecidableEq, Repr

/-- Body of `txout_to_script`: `FIELD(keys) FIELD(script)`. -/
def txout_to_script.do_serialize (x : txout_to_script) : Option Bytes := do
  let keys ← serialize_vector serialize_element_blob x.keys
  let script ← serialize_vector serialize_element_byte x.script
  pure (keys ++ script)

/-- Body of `txin_gen`: `VARINT_FIELD(height)`. -/
def txin_gen.do_serialize (x : txin_gen) : Option Bytes :=
  pure (serialize_varint x.height)

/-- Body of `txin_to_script`: `FIELD(prev) VARINT_FIELD(prevout) FIELD(sigset)`. -/
def txin_to_script.do_serialize (x : txin_to_script) : Option Bytes := do
  let prev := serialize_blob x.prev
  let prevout := serialize_varint x.prevout
  let sigset ← serialize_vector serialize_element_byte x.sigset
  pure (prev ++ prevout ++ sigset)

/-- Body of `txin_to_scripthash`:
`FIELD(prev) VARINT_FIELD(prevout) FIELD(script) FIELD(sigset)`. -/
def txin_to_scripthash.do_serialize (x : txin_to_scripthash) : Option Bytes := do
  let prev := serialize_blob x.prev
  let prevout := serialize_varint x.prevout
  let script ← x.script.do_serialize
  let sigset ← serialize_vector serialize_element_byte x.sigset
  pure (prev ++ prevout ++ script ++ sigset)

/-- Body of `txin_to_key`:
`VARINT_FIELD(amount) FIELD(key_offsets) FIELD(k_image)`. -/
def txin_to_key.do_serialize (x : txin_to_key) : Option Bytes := do
  let amount := serialize_varint x.amount
  let key_offsets ← serialize_vector serialize_element_varint x.key_offsets
  let k_image := serialize_blob x.k_image
  pure (amount ++ key_offsets ++ k_image)

/-- Writer of the input variant: the `VARIANT_TAG(binary_archive, ...)` byte
of the active alternative, then its body. -/
def txin_v.do_serialize : txin_v → Option Bytes
  | .gen x => x.do_serialize.map (fun body => 0xff :: body)
  | .to_script x => x.do_serialize.map (fun body => 0x0 :: body)
  | .to_scripthash x => x.do_serialize.map (fun body => 0x1 :: body)
  | .to_key x => x.do_serialize.map (fun body => 0x2 :: body)

/-- Writer of the output-target variant: tag byte, then the body (the two
`BLOB_SERIALIZER` targets are raw bytes). -/
def txout_target_v.do_serialize : txout_target_v → Option Bytes
  | .to_script x => x.do_serialize.map (fun body => 0x0 :: body)
  | .to_scripthash x => some (0x1 :: serialize_blob x.hash)
  | .to_key x => some (0x2 :: serialize_blob x.key)

/-- Body of `tx_out`: `VARINT_FIELD(amount) FIELD(target)`. -/
def tx_out.do_serialize (x : tx_out) : Option Bytes := do
  let amount := serialize_varint x.amount
  let target ← x.target.do_serialize
  pure (amount ++ target)

/-! ## Transactions -/

/-- Enumerator `loki_version_2` of `enum loki_version`. -/
def loki_version_2 : Nat := 2
/-- Enumerator `loki_version_3_per_output_unlock_times` of `enum loki_version`. -/
def loki_version_3_per_output_unlock_times : Nat := 3
/-- Enumerator `loki_version_4_tx_types` of `enum loki_version`. -/
def loki_version_4_tx_types : Nat := 4

/-- Enumerator `loki_type_standard` of `transaction_prefix::loki_type_t`. -/
def loki_type_standard : Nat := 0
/-- Enumerator `loki_type_deregister` of `transaction_prefix::loki_type_t`. -/
def loki_type_deregister : Nat := 1
/-- Enumerator `loki_type_key_image_unlock` of `transaction_prefix::loki_type_t`. -/
def loki_type_key_image_unlock : Nat := 2
/-- Enumerator `loki_type_count` of `transaction_prefix::loki_type_t`: the
fourth enumerator of an enum that starts at zero. -/
def loki_type_count : Nat := 3

/-- The class `transaction_prefix`.  The anonymous union of `bool
is_deregister` and `uint16_t type` is the single field `type`. -/
structure transaction_prefix where
  blob_type : BLOB_TYPE
  version : Nat
  unlock_time : Nat
  vin : List txin_v
  vout : List tx_out
  extra : Bytes
  output_unlock_times : List Nat
  type : Nat
  deriving DecidableEq, Repr

/-- The byte written by `FIELD(is_deregister)`: the `bool` member of the union
shares its storage with the low byte of `type`. -/
def transaction_prefix.is_deregister_byte (p : transaction_prefix) : Bytes :=
  [p.type % 256]

/-- Lines 187-192: the Loki fields written between `version` and
`unlock_time`. -/
def transaction_prefix.serialize_loki_head (p : transaction_prefix) : Option Bytes :=
  if p.version > loki_version_2 ∧ p.blob_type = BLOB_TYPE_CRYPTONOTE_LOKI then do
    let output_unlock_times ← serialize_vector serialize_element_varint p.output_unlock_times
    if p.version = loki_version_3_per_output_unlock_times then
      pure (output_unlock_times ++ p.is_deregister_byte)
    else
      pure output_unlock_times
  else
    pure []

/-- Lines 201-205: the type code written after `extra`. -/
def transaction_prefix.serialize_loki_type (p : transaction_prefix) : Option Bytes :=
  if p.blob_type = BLOB_TYPE_CRYPTONOTE_LOKI ∧ p.version ≥ loki_version_4_tx_types then
    if p.type % 65536 ≥ loki_type_count then none
    else pure (serialize_varint p.type)
  else
    pure []

/-- The member `transaction_prefix::do_serialize` (lines 185-206). -/
def transaction_prefix.do_serialize (p : transaction_prefix) : Option Bytes := do
  let version := serialize_varint p.version
  let loki_head ← p.serialize_loki_head
  let unlock_time := serialize_varint p.unlock_time
  let vin ← serialize_vector txin_v.do_serialize p.vin
  let vout ← serialize_vector tx_out.do_serialize p.vout
  if p.blob_type = BLOB_TYPE_CRYPTONOTE_LOKI ∧
      p.version ≥ loki_version_3_per_output_unlock_times ∧
      p.vout.length ≠ p.output_unlock_times.length then
    none
  else do
    let extra ← serialize_vector serialize_element_byte p.extra
    let loki_type ← p.serialize_loki_type
    pure (version ++ loki_head ++ unlock_time ++ vin ++ vout ++ extra ++ loki_type)

/-- Modelled from the spec: `rct::rctSigPrunable` of the absent
`ringct/rctTypes.h`; its content is read by the RingCT sub-codec only. -/
structure rctSigPrunable where
  content : Bytes
  deriving DecidableEq, Repr

/-- Modelled from the spec: `rct::rctSig` of the absent `ringct/rctTypes.h`:
the signature type, the prunable part `p`, and the remaining content, which is
read by the RingCT sub-codec only. -/
structure rctSig where
  type : Nat
  content : Bytes
  p : rctSigPrunable
  deriving DecidableEq, Repr

/-- Modelled from the spec: `rct::RCTTypeNull` of the absent
`ringct/rctTypes.h`, the "null" signature type. -/
def RCTTypeNull : Nat := 0

/-- The class `transaction`, which derives from `transaction_prefix`. -/
structure transaction extends transaction_prefix where
  signatures : List (List signature)
  rct_signatures : rctSig
  deriving DecidableEq, Repr

/-- The member `transaction::get_signature_size` (lines 306-318). -/
def transaction.get_signature_size : txin_v → Nat
  | .gen _ => 0
  | .to_script _ => 0
  | .to_scripthash _ => 0
  | .to_key txin => txin.key_offsets.length

/-- Modelled from the spec: the writer of a `std::vector<crypto::signature>`
(absent `serialization/crypto.h`): the raw signatures one after another,
without a count. -/
def serialize_signatures : List signature → Option Bytes
  | [] => some []
  | s :: rest => (serialize_signatures rest).map (fun others => serialize_blob s ++ others)

/-- The loop of lines 235-254 from index `i` on, over the inputs that are
left.  `signatures_not_expected` is the flag of line 231. -/
def transaction.serialize_signature_loop (signatures : List (List signature))
    (signatures_not_expected : Bool) : Nat → List txin_v → Option Bytes
  | _, [] => some []
  | i, tx_in :: rest =>
    let signature_size := transaction.get_signature_size tx_in
    if signatures_not_expected then
      if 0 = signature_size then
        transaction.serialize_signature_loop signatures signatures_not_expected (i + 1) rest
      else
        none
    else if signature_size ≠ (signatures.getD i []).length then
      none
    else do
      let slot ← serialize_signatures (signatures.getD i [])
      let others ←
        transaction.serialize_signature_loop signatures signatures_not_expected (i + 1) rest
      pure (slot ++ others)

/-- Lines 228-255: the legacy signature section. -/
def transaction.serialize_legacy_signatures (t : transaction) : Option Bytes :=
  let signatures_not_expected := t.signatures.isEmpty
  if !signatures_not_expected ∧ t.vin.length ≠ t.signatures.length then
    none
  else
    transaction.serialize_signature_loop t.signatures signatures_not_expected 0 t.vin

/-- The functions that the header declares or calls and that are implemented
elsewhere (`cryptonote_format_utils.cpp`, `crypto/tree-hash.c`,
`ringct/rctTypes.h`).  `get_mm_tag_from_extra` returns the `depth` of the tag
it finds; `tree_hash_from_branch` takes the branch, its length and the leaf
(the `path` argument is always null here). -/
structure Externals where
  get_transaction_hash : transaction → Option hash
  get_transaction_prefix_hash : transaction_prefix → hash
  get_blob_hash : Bytes → hash
  get_mm_tag_from_extra : Bytes → Option Nat
  tree_depth : Nat → Nat
  tree_hash_from_branch : List hash → Nat → hash → hash
  serialize_rctsig_base : rctSig → Nat → Nat → Option Bytes
  serialize_rctsig_prunable : rctSigPrunable → Nat → Nat → Nat → Nat → Option Bytes

/-- The last argument of `serialize_rctsig_prunable` at line 271, computed in
`size_t`. -/
def transaction.mixin (t : transaction) : Nat :=
  match t.vin.head? with
  | some (.to_key x) => (x.key_offsets.length + (2 ^ 64 - 1)) % 2 ^ 64
  | _ => 0

/-- Lines 259-275: the delegated (RingCT) signature section. -/
def transaction.serialize_rct_signatures (E : Externals) (t : transaction) : Option Bytes :=
  if !t.vin.isEmpty then do
    let base ← E.serialize_rctsig_base t.rct_signatures t.vin.length t.vout.length
    if t.rct_signatures.type ≠ RCTTypeNull then do
      let prunable ← E.serialize_rctsig_prunable t.rct_signatures.p t.rct_signatures.type
        t.vin.length t.vout.length t.mixin
      pure (base ++ prunable)
    else
      pure base
  else
    pure []

/-- Lines 226-276: the signature section that follows the prefix. -/
def transaction.serialize_signature_section (E : Externals) (t : transaction) : Option Bytes :=
  if t.version = 1 ∧ t.blob_type ≠ BLOB_TYPE_CRYPTONOTE2 then
    t.serialize_legacy_signatures
  else
    t.serialize_rct_signatures E

/-- The member `transaction::do_serialize` (lines 223-277). -/
def transaction.do_serialize (E : Externals) (t : transaction) : Option Bytes := do
  let pre ← t.totransaction_prefix.do_serialize
  let signature_section ← t.serialize_signature_section E
  pure (pre ++ signature_section)

/-! ## The auxiliary (parent) block of the merge-mining dialect -/

structure bytecoin_block where
  major_version : Nat
  minor_version : Nat
  prev_id : hash
  nonce : Nat
  number_of_transactions : Nat
  miner_tx_branch : List hash
  miner_tx : transaction
  blockchain_branch : List hash
  deriving DecidableEq, Repr

/-- The struct `serializable_bytecoin_block`: the references `b` and
`timestamp` are carried by value, which is what a writer observes. -/
structure serializable_bytecoin_block where
  b : bytecoin_block
  timestamp : Nat
  hashing_serialization : Bool
  header_only : Bool
  deriving DecidableEq, Repr

/-- The array `data` of line 366. -/
def miner_tx_hash_data : Bytes :=
  [0x00, 0x00, 0x00, 0x00, 0x00, 0x00, 0x00, 0x00, 0x00, 0x00, 0x00, 0x00, 0x00, 0x00, 0x00, 0x00,
   0x00, 0x00, 0x00, 0x00, 0x00, 0x00, 0x00, 0x00, 0x00, 0x00, 0x00, 0x00, 0x00, 0x00, 0x00, 0x00,
   0xbc, 0x36, 0x78, 0x9e, 0x7a, 0x1e, 0x28, 0x14, 0x36, 0x46, 0x42, 0x29, 0x82, 0x8f, 0x81, 0x7d,
   0x66, 0x12, 0xf7, 0xb4, 0x77, 0xd6, 0x65, 0x91, 0xff, 0x96, 0xa9, 0xe0, 0x64, 0xbc, 0xc9, 0x8a,
   0x00, 0x00, 0x00, 0x00, 0x00, 0x00, 0x00, 0x00, 0x00, 0x00, 0x00, 0x00, 0x00, 0x00, 0x00, 0x00,
   0x00, 0x00, 0x00, 0x00, 0x00, 0x00, 0x00, 0x00, 0x00, 0x00, 0x00, 0x00, 0x00, 0x00, 0x00, 0x00]

/-- The loop of line 369, `for (i = 0; i != HASH_SIZE; ++i, ++p) blobdata[i] = *p`,
from index `i` on with `count` iterations left; `p` is the hash being copied. -/
def copy_hash_into_blob (p : hash) : Nat → Nat → Bytes → Bytes
  | 0, _, blobdata => blobdata
  | count + 1, i, blobdata => copy_hash_into_blob p count (i + 1) (blobdata.set i (p.getD i 0))

/-- Lines 366-369: the blob that is hashed for a miner transaction of
version 2 or more. -/
def miner_tx_hash_blob (prefix_hash : hash) : Bytes :=
  copy_hash_into_blob prefix_hash HASH_SIZE 0 miner_tx_hash_data

/-- Lines 359-371: the value of `miner_tx_hash` that reaches
`tree_hash_from_branch`, or `none` where line 363 returns false. -/
def serializable_bytecoin_block.miner_tx_hash (E : Externals)
    (s : serializable_bytecoin_block) : Option hash :=
  if s.b.miner_tx.version < 2 then
    E.get_transaction_hash s.b.miner_tx
  else
    some (E.get_blob_hash
      (miner_tx_hash_blob (E.get_transaction_prefix_hash s.b.miner_tx.totransaction_prefix)))

/-- Lines 357-377: the Merkle root written in hashing mode. -/
def serializable_bytecoin_block.serialize_merkle_root (E : Externals)
    (s : serializable_bytecoin_block) : Option Bytes :=
  if s.hashing_serialization then do
    let miner_tx_hash ← s.miner_tx_hash E
    let merkle_root :=
      E.tree_hash_from_branch s.b.miner_tx_branch s.b.miner_tx_branch.length miner_tx_hash
    pure (serialize_blob merkle_root)
  else
    pure []

/-- The loops of lines 391-396 and 410-415: `FIELDS(branch[i])` for
`i = 0 .. size - 1`, from index `i` on with `count` iterations left. -/
def serialize_branch (branch : List hash) : Nat → Nat → Option Bytes
  | 0, _ => some []
  | count + 1, i => do
    let others ← serialize_branch branch count (i + 1)
    pure (serialize_blob (branch.getD i []) ++ others)

/-- Lines 383-417: what full mode writes after `number_of_transactions`. -/
def serializable_bytecoin_block.serialize_full_part (E : Externals)
    (s : serializable_bytecoin_block) : Option Bytes :=
  if !s.header_only then
    let branch_size := E.tree_depth s.b.number_of_transactions
    if s.b.miner_tx_branch.length ≠ branch_size then
      none
    else do
      let miner_tx_branch ← serialize_branch s.b.miner_tx_branch branch_size 0
      let miner_tx ← s.b.miner_tx.do_serialize E
      match E.get_mm_tag_from_extra s.b.miner_tx.extra with
      | none => none
      | some depth =>
        if depth ≠ s.b.blockchain_branch.length then
          none
        else do
          let blockchain_branch ← serialize_branch s.b.blockchain_branch depth 0
          pure (miner_tx_branch ++ miner_tx ++ blockchain_branch)
  else
    pure []

/-- Lines 351-355: the five leading fields. -/
def serializable_bytecoin_block.serialize_head (s : serializable_bytecoin_block) : Bytes :=
  serialize_varint s.b.major_version ++ serialize_varint s.b.minor_version ++
    serialize_varint s.timestamp ++ serialize_blob s.b.prev_id ++ serialize_int 4 s.b.nonce

/-- The member `serializable_bytecoin_block::do_serialize` (lines 350-418). -/
def serializable_bytecoin_block.do_serialize (E : Externals)
    (s : serializable_bytecoin_block) : Option Bytes := do
  let head := s.serialize_head
  let merkle_root ← s.serialize_merkle_root E
  let number_of_transactions := serialize_varint s.b.number_of_transactions
  if s.b.number_of_transactions < 1 then
    none
  else do
    let full_part ← s.serialize_full_part E
    pure (head ++ merkle_root ++ number_of_transactions ++ full_part)

/-! ## Blocks -/

structure block_header where
  blob_type : BLOB_TYPE
  major_version : Nat
  minor_version : Nat
  timestamp : Nat
  prev_id : hash
  nonce : Nat
  deriving DecidableEq, Repr

/-- The member `block_header::do_serialize` (lines 434-440). -/
def block_header.do_serialize (h : block_header) : Option Bytes := do
  let major_version := serialize_varint h.major_version
  let minor_version := serialize_varint h.minor_version
  let timestamp := if h.blob_type ≠ BLOB_TYPE_FORKNOTE2 then serialize_varint h.timestamp else []
  let prev_id := serialize_blob h.prev_id
  let nonce := if h.blob_type ≠ BLOB_TYPE_FORKNOTE2 then serialize_int 4 h.nonce else []
  pure (major_version ++ minor_version ++ timestamp ++ prev_id ++ nonce)

/-- The struct `block`, which derives from `block_header`. -/
structure block extends block_header where
  parent_block : bytecoin_block
  miner_tx : transaction
  tx_hashes : List hash
  deriving DecidableEq, Repr

/-- The function `make_serializable_bytecoin_block` (lines 464-468). -/
def make_serializable_bytecoin_block (b : block) (hashing_serialization : Bool)
    (header_only : Bool) : serializable_bytecoin_block :=
  { b := b.parent_block, timestamp := b.timestamp,
    hashing_serialization := hashing_serialization, header_only := header_only }

/-- Lines 454-458: the `parent_block` field of the merge-mining dialect. -/
def block.serialize_parent_block (E : Externals) (b : block) : Option Bytes :=
  if b.blob_type = BLOB_TYPE_FORKNOTE2 then
    (make_serializable_bytecoin_block b false false).do_serialize E
  else
    pure []

/-- The member `block::do_serialize` (lines 452-461). -/
def block.do_serialize (E : Externals) (b : block) : Option Bytes := do
  let header ← b.toblock_header.do_serialize
  let parent_block ← b.serialize_parent_block E
  let miner_tx ← b.miner_tx.do_serialize E
  let tx_hashes ← serialize_vector serialize_element_blob b.tx_hashes
  pure (header ++ parent_block ++ miner_tx ++ tx_hashes)

/-! ## Variant tags -/

/-- The `which()` of the input variant: the position of the active alternative
in `boost::variant<txin_gen, txin_to_script, txin_to_scripthash, txin_to_key>`. -/
def txin_v.which : txin_v → Nat
  | .gen _ => 0
  | .to_script _ => 1
  | .to_scripthash _ => 2
  | .to_key _ => 3

/-- The `which()` of the output-target variant. -/
def txout_target_v.which : txout_target_v → Nat
  | .to_script _ => 0
  | .to_scripthash _ => 1
  | .to_key _ => 2

/-- The `VARIANT_TAG(binary_archive, ...)` lines 523-526. -/
def txin_v.binary_tag : txin_v → Nat
  | .gen _ => 0xff
  | .to_script _ => 0x0
  | .to_scripthash _ => 0x1
  | .to_key _ => 0x2

/-- The `VARIANT_TAG(binary_archive, ...)` lines 527-529. -/
def txout_target_v.binary_tag : txout_target_v → Nat
  | .to_script _ => 0x0
  | .to_scripthash _ => 0x1
  | .to_key _ => 0x2

/-- The `VARIANT_TAG(json_archive, ...)` lines 533-536. -/
def txin_v.json_tag : txin_v → String
  | .gen _ => "gen"
  | .to_script _ => "script"
  | .to_scripthash _ => "scripthash"
  | .to_key _ => "key"

/-- The `VARIANT_TAG(json_archive, ...)` lines 537-539. -/
def txout_target_v.json_tag : txout_target_v → String
  | .to_script _ => "script"
  | .to_scripthash _ => "scripthash"
  | .to_key _ => "key"

/-- The `VARIANT_TAG(debug_archive, ...)` lines 543-546. -/
def txin_v.debug_tag : txin_v → String
  | .gen _ => "gen"
  | .to_script _ => "script"
  | .to_scripthash _ => "scripthash"
  | .to_key _ => "key"

/-- The `VARIANT_TAG(debug_archive, ...)` lines 547-549. -/
def txout_target_v.debug_tag : txout_target_v → String
  | .to_script _ => "script"
  | .to_scripthash _ => "scripthash"
  | .to_key _ => "key"

/-! ## The loading binary archive: primitives -/

/-- Modelled from the spec: the loop of `read_varint` behind
`ar.serialize_varint(v)` on the loading binary archive (absent
`serialization/binary_archive.h` and `common/varint.h`), for a destination of
`bits` bits.  Each byte carries seven bits, least significant group first; a
byte that does not fit the destination, a zero byte after the first one, and
the end of the input are failures. -/
def read_varint_loop (bits : Nat) : Nat → Nat → Bytes → Option (Nat × Bytes)
  | _, _, [] => none
  | shift, write, byte :: rest =>
    if shift + 7 ≥ bits ∧ byte ≥ 2 ^ (bits - shift) then none
    else if byte = 0 ∧ shift ≠ 0 then none
    else if byte < 128 then some (write + byte % 128 * 2 ^ shift, rest)
    else read_varint_loop bits (shift + 7) (write + byte % 128 * 2 ^ shift) rest

/-- Modelled from the spec: `ar.serialize_varint(v)` on the loading binary
archive, for a destination of `bits` bits. -/
def read_varint (bits : Nat) (input : Bytes) : Option (Nat × Bytes) :=
  read_varint_loop bits 0 0 input

/-- Modelled from the spec: `ar.serialize_int(v)` on the loading binary
archive (absent `serialization/binary_archive.h`): `width` bytes, little
endian. -/
def read_int : Nat → Bytes → Option (Nat × Bytes)
  | 0, input => some (0, input)
  | _ + 1, [] => none
  | width + 1, byte :: rest =>
    (read_int width rest).map (fun r => (byte + 256 * r.1, r.2))

/-- Modelled from the spec: `ar.serialize_blob(buf, len)` on the loading
binary archive (absent `serialization/binary_archive.h`): the next `size`
bytes, or failure when fewer are left. -/
def read_blob (size : Nat) (input : Bytes) : Option (Bytes × Bytes) :=
  if input.length < size then none else some (input.take size, input.drop size)

/-- Modelled from the spec: the element loop of the vector reader (absent
`serialization/vector.h`): `count` elements in order, failing as soon as one
element fails. -/
def read_elements {α : Type} (g : Bytes → Option (α × Bytes)) :
    Nat → Bytes → Option (List α × Bytes)
  | 0, input => some ([], input)
  | count + 1, input => do
    let first ← g input
    let others ← read_elements g count first.2
    pure (first.1 :: others.1, others.2)

/-- Modelled from the spec: `do_serialize(ar, v)` for a `std::vector<T>` on a
loading archive (absent `serialization/vector.h`): the count is read as a
varint and checked against the bytes that are left before the elements are
read. -/
def read_vector {α : Type} (g : Bytes → Option (α × Bytes)) (input : Bytes) :
    Option (List α × Bytes) := do
  let count ← read_varint 64 input
  if count.2.length < count.1 then none else read_elements g count.1 count.2

/-- Modelled from the spec: `v.resize(size)` of `std::vector`, behind
`PREPARE_CUSTOM_VECTOR_SERIALIZATION` on a loading archive (absent
`serialization/serialization.h`). -/
def resize {α : Type} (v : List α) (size : Nat) (value : α) : List α :=
  v.take size ++ List.replicate (size - v.length) value

/-! ## The loading binary archive: inputs and outputs -/

/-- Reader of `txout_to_script`: `FIELD(keys) FIELD(script)`. -/
def txout_to_script.do_deserialize (input : Bytes) : Option (txout_to_script × Bytes) := do
  let keys ← read_vector (read_blob 32) input
  let script ← read_vector (read_int 1) keys.2
  pure ({ keys := keys.1, script := script.1 }, script.2)

/-- Reader of `txin_gen`: `VARINT_FIELD(height)`. -/
def txin_gen.do_deserialize (input : Bytes) : Option (txin_gen × Bytes) := do
  let height ← read_varint 64 input
  pure ({ height := height.1 }, height.2)

/-- Reader of `txin_to_script`: `FIELD(prev) VARINT_FIELD(prevout) FIELD(sigset)`. -/
def txin_to_script.do_deserialize (input : Bytes) : Option (txin_to_script × Bytes) := do
  let prev ← read_blob 32 input
  let prevout ← read_varint 64 prev.2
  let sigset ← read_vector (read_int 1) prevout.2
  pure ({ prev := prev.1, prevout := prevout.1, sigset := sigset.1 }, sigset.2)

/-- Reader of `txin_to_scripthash`:
`FIELD(prev) VARINT_FIELD(prevout) FIELD(script) FIELD(sigset)`. -/
def txin_to_scripthash.do_deserialize (input : Bytes) :
    Option (txin_to_scripthash × Bytes) := do
  let prev ← read_blob 32 input
  let prevout ← read_varint 64 prev.2
  let script ← txout_to_script.do_deserialize prevout.2
  let sigset ← read_vector (read_int 1) script.2
  pure ({ prev := prev.1, prevout := prevout.1, script := script.1, sigset := sigset.1 },
    sigset.2)

/-- Reader of `txin_to_key`:
`VARINT_FIELD(amount) FIELD(key_offsets) FIELD(k_image)`. -/
def txin_to_key.do_deserialize (input : Bytes) : Option (txin_to_key × Bytes) := do
  let amount ← read_varint 64 input
  let key_offsets ← read_vector (read_varint 64) amount.2
  let k_image ← read_blob 32 key_offsets.2
  pure ({ amount := amount.1, key_offsets := key_offsets.1, k_image := k_image.1 }, k_image.2)

/-- Modelled from the spec: the reader of the input variant (absent
`serialization/variant.h`): the tag byte is read first and compared with the
`VARIANT_TAG(binary_archive, ...)` of each alternative in turn; the body of the
alternative that matches is read, and a tag that matches none is a failure. -/
def txin_v.do_deserialize : Bytes → Option (txin_v × Bytes)
  | [] => none
  | tag :: input =>
    if tag = 0xff then (txin_gen.do_deserialize input).map (fun r => (.gen r.1, r.2))
    else if tag = 0x0 then
      (txin_to_script.do_deserialize input).map (fun r => (.to_script r.1, r.2))
    else if tag = 0x1 then
      (txin_to_scripthash.do_deserialize input).map (fun r => (.to_scripthash r.1, r.2))
    else if tag = 0x2 then
      (txin_to_key.do_deserialize input).map (fun r => (.to_key r.1, r.2))
    else none

/-- Modelled from the spec: the reader of the output-target variant (absent
`serialization/variant.h`); the two `BLOB_SERIALIZER` targets are 32 raw
bytes. -/
def txout_target_v.do_deserialize : Bytes → Option (txout_target_v × Bytes)
  | [] => none
  | tag :: input =>
    if tag = 0x0 then
      (txout_to_script.do_deserialize input).map (fun r => (.to_script r.1, r.2))
    else if tag = 0x1 then
      (read_blob 32 input).map (fun r => (.to_scripthash ⟨r.1⟩, r.2))
    else if tag = 0x2 then
      (read_blob 32 input).map (fun r => (.to_key ⟨r.1⟩, r.2))
    else none

/-- Reader of `tx_out`: `VARINT_FIELD(amount) FIELD(target)`. -/
def tx_out.do_deserialize (input : Bytes) : Option (tx_out × Bytes) := do
  let amount ← read_varint 64 input
  let target ← txout_target_v.do_deserialize amount.2
  pure ({ amount := amount.1, target := target.1 }, target.2)

/-! ## Values that fit their C++ types -/

/-- A `std::vector<uint8_t>`: fewer than 2^64 elements, each below 256. -/
def wf_byte_vector (v : Bytes) : Prop := v.length < 2 ^ 64 ∧ ∀ x ∈ v, x < 256

instance (v : Bytes) : Decidable (wf_byte_vector v) := by
  unfold wf_byte_vector; infer_instance

/-- A `std::vector<uint64_t>`: fewer than 2^64 elements, each below 2^64. -/
def wf_u64_vector (v : List Nat) : Prop := v.length < 2 ^ 64 ∧ ∀ x ∈ v, x < 2 ^ 64

instance (v : List Nat) : Decidable (wf_u64_vector v) := by
  unfold wf_u64_vector; infer_instance

/-- A `std::vector` of PODs of `size` bytes. -/
def wf_pod_vector (size : Nat) (v : List Bytes) : Prop :=
  v.length < 2 ^ 64 ∧ ∀ x ∈ v, x.length = size

instance (size : Nat) (v : List Bytes) : Decidable (wf_pod_vector size v) := by
  unfold wf_pod_vector; infer_instance

/-- The fields of a `txout_to_script` fit their types. -/
def txout_to_script.wf (x : txout_to_script) : Prop :=
  wf_pod_vector 32 x.keys ∧ wf_byte_vector x.script

instance (x : txout_to_script) : Decidable x.wf := by
  unfold txout_to_script.wf; infer_instance

/-- The fields of the active input alternative fit their types: hashes and
key images have 32 bytes, `size_t` and `uint64_t` values are below 2^64. -/
def txin_v.wf : txin_v → Prop
  | .gen x => x.height < 2 ^ 64
  | .to_script x => x.prev.length = 32 ∧ x.prevout < 2 ^ 64 ∧ wf_byte_vector x.sigset
  | .to_scripthash x =>
    x.prev.length = 32 ∧ x.prevout < 2 ^ 64 ∧ x.script.wf ∧ wf_byte_vector x.sigset
  | .to_key x => x.amount < 2 ^ 64 ∧ wf_u64_vector x.key_offsets ∧ x.k_image.length = 32

instance (x : txin_v) : Decidable x.wf := by
  cases x <;> (unfold txin_v.wf; infer_instance)

/-- The fields of the active output alternative fit their types. -/
def txout_target_v.wf : txout_target_v → Prop
  | .to_script x => x.wf
  | .to_scripthash x => x.hash.length = 32
  | .to_key x => x.key.length = 32

instance (x : txout_target_v) : Decidable x.wf := by
  cases x <;> (unfold txout_target_v.wf; infer_instance)

/-- The fields of a `tx_out` fit their types. -/
def tx_out.wf (x : tx_out) : Prop := x.amount < 2 ^ 64 ∧ x.target.wf

instance (x : tx_out) : Decidable x.wf := by
  unfold tx_out.wf; infer_instance

/-! ## The loading binary archive: transactions and blocks

A reader fills an object that exists already: each reader takes that object
and returns the object after the read, together with the input that is left.
Fields that the reader does not touch keep the value they had. -/

/-- Lines 187-192 on a loading archive: the unlock times and the type after
the Loki fields between `version` and `unlock_time` were read.  The byte read
by `FIELD(is_deregister)` replaces the low byte of the union's storage. -/
def transaction_prefix.deserialize_loki_head (p0 : transaction_prefix) (version : Nat)
    (input : Bytes) : Option ((List Nat × Nat) × Bytes) :=
  if version > loki_version_2 ∧ p0.blob_type = BLOB_TYPE_CRYPTONOTE_LOKI then do
    let output_unlock_times ← read_vector (read_varint 64) input
    if version = loki_version_3_per_output_unlock_times then do
      let is_deregister ← read_int 1 output_unlock_times.2
      pure ((output_unlock_times.1, p0.type / 256 * 256 + is_deregister.1), is_deregister.2)
    else
      pure ((output_unlock_times.1, p0.type), output_unlock_times.2)
  else
    pure ((p0.output_unlock_times, p0.type), input)

/-- Lines 201-205 on a loading archive: the type after the type code was
read into the 16-bit `type`. -/
def transaction_prefix.deserialize_loki_type (p0 : transaction_prefix) (version type : Nat)
    (input : Bytes) : Option (Nat × Bytes) :=
  if p0.blob_type = BLOB_TYPE_CRYPTONOTE_LOKI ∧ version ≥ loki_version_4_tx_types then do
    let read_type ← read_varint 16 input
    if read_type.1 % 65536 ≥ loki_type_count then none
    else pure read_type
  else
    pure (type, input)

/-- The member `transaction_prefix::do_serialize` (lines 185-206) on a loading
archive. -/
def transaction_prefix.do_deserialize (p0 : transaction_prefix) (input : Bytes) :
    Option ( transaction_prefix × Bytes) := do
  let version ← read_varint 64 input
  let loki_head ← p0.deserialize_loki_head version.1 version.2
  let unlock_time ← read_varint 64 loki_head.2
  let vin ← read_vector txin_v.do_deserialize unlock_time.2
  let vout ← read_vector tx_out.do_deserialize vin.2
  if p0.blob_type = BLOB_TYPE_CRYPTONOTE_LOKI ∧
      version.1 ≥ loki_version_3_per_output_unlock_times ∧
      vout.1.length ≠ loki_head.1.1.length then
    none
  else do
    let extra ← read_vector (read_int 1) vout.2
    let loki_type ← p0.deserialize_loki_type version.1 loki_head.1.2 extra.2
    pure ({ blob_type := p0.blob_type, version := version.1, unlock_time := unlock_time.1,
            vin := vin.1, vout := vout.1, extra := extra.1,
            output_unlock_times := loki_head.1.1, type := loki_type.1 }, loki_type.2)

/-- Modelled from the spec: the reader of a `std::vector<crypto::signature>`
(absent `serialization/crypto.h`): as many raw signatures of 64 bytes as the
vector holds when the reader is called. -/
def deserialize_signatures (slot : List signature) (input : Bytes) :
    Option (List signature × Bytes) :=
  read_elements (read_blob 64) slot.length input

/-- The loop of lines 235-254 on a loading archive, from index `i` on, over
the inputs that are left; `signatures` is the vector as it stands. -/
def transaction.deserialize_signature_loop (signatures_not_expected : Bool) :
    Nat → List txin_v → List (List signature) → Bytes →
      Option (List (List signature) × Bytes)
  | _, [], signatures, input => some (signatures, input)
  | i, tx_in :: rest, signatures, input =>
    let signature_size := transaction.get_signature_size tx_in
    if signatures_not_expected then
      if 0 = signature_size then
        transaction.deserialize_signature_loop signatures_not_expected (i + 1) rest signatures
          input
      else
        none
    else
      let slot := resize (signatures.getD i []) signature_size (List.replicate 64 0)
      if signature_size ≠ slot.length then
        none
      else do
        let read_slot ← deserialize_signatures slot input
        transaction.deserialize_signature_loop signatures_not_expected (i + 1) rest
          (signatures.set i read_slot.1) read_slot.2

/-- Lines 228-255 on a loading archive: `signatures` is first resized to the
number of inputs. -/
def transaction.deserialize_legacy_signatures (vin : List txin_v)
    (signatures0 : List (List signature)) (input : Bytes) :
    Option (List (List signature) × Bytes) :=
  let signatures := resize signatures0 vin.length []
  let signatures_not_expected := signatures.isEmpty
  if !signatures_not_expected ∧ vin.length ≠ signatures.length then
    none
  else
    transaction.deserialize_signature_loop signatures_not_expected 0 vin signatures input

/-- The loading side of the RingCT sub-codec (absent `ringct/rctTypes.h`):
each function takes the object it fills and the input, and returns the object
read and the input that is left. -/
structure ReadExternals where
  read_rctsig_base : rctSig → Nat → Nat → Bytes → Option (rctSig × Bytes)
  read_rctsig_prunable :
    rctSigPrunable → Nat → Nat → Nat → Nat → Bytes → Option (rctSigPrunable × Bytes)

/-- Lines 259-275 on a loading archive; `t` holds the prefix that was read. -/
def transaction.deserialize_rct_signatures (R : ReadExternals) (t : transaction)
    (input : Bytes) : Option (rctSig × Bytes) :=
  if !t.vin.isEmpty then do
    let base ← R.read_rctsig_base t.rct_signatures t.vin.length t.vout.length input
    if base.1.type ≠ RCTTypeNull then do
      let prunable ← R.read_rctsig_prunable base.1.p base.1.type t.vin.length t.vout.length
        t.mixin base.2
      pure ({ base.1 with p := prunable.1 }, prunable.2)
    else
      pure base
  else
    pure (t.rct_signatures, input)

/-- The member `transaction::do_serialize` (lines 223-277) on a loading
archive. -/
def transaction.do_deserialize (R : ReadExternals) (t0 : transaction) (input : Bytes) :
    Option (transaction × Bytes) := do
  let pre ← t0.totransaction_prefix.do_deserialize input
  if pre.1.version = 1 ∧ pre.1.blob_type ≠ BLOB_TYPE_CRYPTONOTE2 then do
    let signatures ← transaction.deserialize_legacy_signatures pre.1.vin t0.signatures pre.2
    pure ({ totransaction_prefix := pre.1, signatures := signatures.1,
            rct_signatures := t0.rct_signatures }, signatures.2)
  else do
    let rct_signatures ← transaction.deserialize_rct_signatures R
      { totransaction_prefix := pre.1, signatures := t0.signatures,
        rct_signatures := t0.rct_signatures } pre.2
    pure ({ totransaction_prefix := pre.1, signatures := t0.signatures,
            rct_signatures := rct_signatures.1 }, rct_signatures.2)

/-- Lines 385-397 and 405-416 on a loading archive: the branch is resized to
`size` and each of its hashes is read. -/
def deserialize_branch (branch : List hash) (size : Nat) (input : Bytes) :
    Option (List hash × Bytes) :=
  let resized := resize branch size (List.replicate 32 0)
  if resized.length ≠ size then none
  else read_elements (read_blob 32) size input

/-- Lines 383-417 on a loading archive: the two branches and the miner
transaction after the full part was read. -/
def serializable_bytecoin_block.deserialize_full_part (E : Externals) (R : ReadExternals)
    (s : serializable_bytecoin_block) (input : Bytes) :
    Option ((List hash × transaction × List hash) × Bytes) :=
  if !s.header_only then do
    let branch_size := E.tree_depth s.b.number_of_transactions
    let miner_tx_branch ← deserialize_branch s.b.miner_tx_branch branch_size input
    let miner_tx ← s.b.miner_tx.do_deserialize R miner_tx_branch.2
    match E.get_mm_tag_from_extra miner_tx.1.extra with
    | none => none
    | some depth => do
      let blockchain_branch ← deserialize_branch s.b.blockchain_branch depth miner_tx.2
      pure ((miner_tx_branch.1, miner_tx.1, blockchain_branch.1), blockchain_branch.2)
  else
    pure ((s.b.miner_tx_branch, s.b.miner_tx, s.b.blockchain_branch), input)

/-- The member `serializable_bytecoin_block::do_serialize` (lines 350-418) on a
loading archive.  In hashing mode the Merkle root is computed from the miner
transaction as it stands and then overwritten by the 32 bytes read. -/
def serializable_bytecoin_block.do_deserialize (E : Externals) (R : ReadExternals)
    (s : serializable_bytecoin_block) (input : Bytes) :
    Option (serializable_bytecoin_block × Bytes) := do
  let major_version ← read_varint 8 input
  let minor_version ← read_varint 8 major_version.2
  let timestamp ← read_varint 64 minor_version.2
  let prev_id ← read_blob 32 timestamp.2
  let nonce ← read_int 4 prev_id.2
  let merkle_root ←
    if s.hashing_serialization then do
      let _ ← s.miner_tx_hash E
      read_blob 32 nonce.2
    else
      pure ([], nonce.2)
  let number_of_transactions ← read_varint 64 merkle_root.2
  if number_of_transactions.1 < 1 then
    none
  else do
    let head : serializable_bytecoin_block :=
      { s with
        b := { s.b with major_version := major_version.1, minor_version := minor_version.1,
                        prev_id := prev_id.1, nonce := nonce.1,
                        number_of_transactions := number_of_transactions.1 },
        timestamp := timestamp.1 }
    let full_part ← head.deserialize_full_part E R number_of_transactions.2
    pure ({ head with
            b := { head.b with miner_tx_branch := full_part.1.1, miner_tx := full_part.1.2.1,
                               blockchain_branch := full_part.1.2.2 } }, full_part.2)

/-- The member `block_header::do_serialize` (lines 434-440) on a loading
archive. -/
def block_header.do_deserialize (h0 : block_header) (input : Bytes) :
    Option (block_header × Bytes) := do
  let major_version ← read_varint 8 input
  let minor_version ← read_varint 8 major_version.2
  let timestamp ←
    if h0.blob_type ≠ BLOB_TYPE_FORKNOTE2 then read_varint 64 minor_version.2
    else pure (h0.timestamp, minor_version.2)
  let prev_id ← read_blob 32 timestamp.2
  let nonce ←
    if h0.blob_type ≠ BLOB_TYPE_FORKNOTE2 then read_int 4 prev_id.2
    else pure (h0.nonce, prev_id.2)
  pure ({ blob_type := h0.blob_type, major_version := major_version.1,
          minor_version := minor_version.1, timestamp := timestamp.1, prev_id := prev_id.1,
          nonce := nonce.1 }, nonce.2)

/-- The member `block::do_serialize` (lines 452-461) on a loading archive.
Under the merge-mining dialect the auxiliary block is read into
`parent_block`, and its timestamp into the timestamp of the block. -/
def block.do_deserialize (E : Externals) (R : ReadExternals) (b0 : block) (input : Bytes) :
    Option (block × Bytes) := do
  let header ← b0.toblock_header.do_deserialize input
  let parent_block ←
    if header.1.blob_type = BLOB_TYPE_FORKNOTE2 then
      ((make_serializable_bytecoin_block { b0 with toblock_header := header.1 } false
          false).do_deserialize E R header.2).map (fun r => ((r.1.b, r.1.timestamp), r.2))
    else
      pure ((b0.parent_block, header.1.timestamp), header.2)
  let miner_tx ← b0.miner_tx.do_deserialize R parent_block.2
  let tx_hashes ← read_vector (read_blob 32) miner_tx.2
  pure ({ toblock_header := { header.1 with timestamp := parent_block.1.2 },
          parent_block := parent_block.1.1, miner_tx := miner_tx.1, tx_hashes := tx_hashes.1 },
    tx_hashes.2)

/-- The fields of a block header fit their types: `uint8_t` versions, a
`uint64_t` timestamp, a hash of 32 bytes and a `uint32_t` nonce. -/
def block_header.wf (h : block_header) : Prop :=
  h.major_version < 2 ^ 8 ∧ h.minor_version < 2 ^ 8 ∧ h.timestamp < 2 ^ 64 ∧
    h.prev_id.length = 32 ∧ h.nonce < 2 ^ 32

instance (h : block_header) : Decidable h.wf := by
  unfold block_header.wf; infer_instance

/-- The fields of a transaction prefix fit their types. -/
def transaction_prefix.wf (p : transaction_prefix) : Prop :=
  p.version < 2 ^ 64 ∧ p.unlock_time < 2 ^ 64 ∧
    (p.vin.length < 2 ^ 64 ∧ ∀ x ∈ p.vin, x.wf) ∧
    (p.vout.length < 2 ^ 64 ∧ ∀ x ∈ p.vout, x.wf) ∧
    wf_byte_vector p.extra ∧ wf_u64_vector p.output_unlock_times ∧ p.type < 2 ^ 16

instance (p : transaction_prefix) : Decidable p.wf := by
  unfold transaction_prefix.wf; infer_instance

/-! ## Sample values -/

/-- A Loki-dialect prefix with one coinbase input, no outputs and no unlock
times, at the given version and type code. -/
def loki_prefix_sample (version type : Nat) : transaction_prefix :=
  { blob_type := BLOB_TYPE_CRYPTONOTE_LOKI, version := version, unlock_time := 0,
    vin := [.gen ⟨300⟩], vout := [], extra := [], output_unlock_times := [], type := type }

/-- A Loki-dialect prefix of version 3 with one output and no unlock time. -/
def sample_loki_mismatch : transaction_prefix :=
  { blob_type := BLOB_TYPE_CRYPTONOTE_LOKI, version := 3, unlock_time := 0,
    vin := [.gen ⟨300⟩], vout := [⟨7, .to_key ⟨List.replicate 32 9⟩⟩], extra := [],
    output_unlock_times := [], type := 0 }

/-- A key input that refers to two outputs. -/
def sample_key_input : txin_v :=
  .to_key { amount := 5, key_offsets := [1, 2], k_image := List.replicate 32 7 }

/-- A plain-dialect transaction of version 1 with the given inputs and legacy
signatures; `extra` holds a merge-mining tag of depth 0 in the format read by
`sample_externals`. -/
def sample_tx (vin : List txin_v) (signatures : List (List signature)) : transaction :=
  { blob_type := BLOB_TYPE_CRYPTONOTE, version := 1, unlock_time := 0, vin := vin,
    vout := [⟨7, .to_key ⟨List.replicate 32 9⟩⟩], extra := [3, 0],
    output_unlock_times := [], type := 0, signatures := signatures,
    rct_signatures := ⟨0, [], ⟨[]⟩⟩ }

/-- Stand-ins for the external functions, used to evaluate the writers on
concrete values: the hashes are toy functions, the merge-mining tag is the
byte 3 followed by the depth, `tree_depth` is constantly 0, and the RingCT
sub-codec writes its content bytes. -/
def sample_externals : Externals :=
  { get_transaction_hash := fun t => some (List.replicate 32 (t.version % 256)),
    get_transaction_prefix_hash := fun p => List.replicate 32 (p.version % 256),
    get_blob_hash := fun blob => blob.take 32,
    get_mm_tag_from_extra := fun extra =>
      match extra with
      | 3 :: depth :: _ => some depth
      | _ => none,
    tree_depth := fun _ => 0,
    tree_hash_from_branch := fun _ _ leaf => leaf,
    serialize_rctsig_base := fun sig _ _ => some sig.content,
    serialize_rctsig_prunable := fun p _ _ _ _ => some p.content }

/-- A toy `tree_depth`: the binary logarithm, with `fuel` halving steps. -/
def sample_tree_depth : Nat → Nat → Nat
  | 0, _ => 0
  | fuel + 1, count => if count < 2 then 0 else sample_tree_depth fuel (count / 2) + 1

/-- The externals of `sample_externals` with the toy `tree_depth`. -/
def sample_externals_depth : Externals :=
  { sample_externals with tree_depth := fun count => sample_tree_depth count count }

/-- The externals of `sample_externals_depth`, except that
`get_transaction_hash` reports failure. -/
def sample_externals_no_hash : Externals :=
  { sample_externals_depth with get_transaction_hash := fun _ => none }

/-- An auxiliary block with the given number of transactions, empty branches
and a coinbase transaction of version 1 whose merge-mining tag has depth 0. -/
def sample_parent_block (number_of_transactions : Nat) : bytecoin_block :=
  { major_version := 1, minor_version := 0, prev_id := List.replicate 32 5, nonce := 77,
    number_of_transactions := number_of_transactions, miner_tx_branch := [],
    miner_tx := sample_tx [.gen ⟨300⟩] [], blockchain_branch := [] }

/-- The serializable view of `sample_parent_block` in the given mode. -/
def sample_aux_block (hashing_serialization header_only : Bool)
    (number_of_transactions : Nat) : serializable_bytecoin_block :=
  { b := sample_parent_block number_of_transactions, timestamp := 1000,
    hashing_serialization := hashing_serialization, header_only := header_only }

/-- A hashing, header-only view of an auxiliary block whose miner transaction
has version 2. -/
def sample_aux_block_v2 : serializable_bytecoin_block :=
  { b := { sample_parent_block 1 with
      miner_tx := { sample_tx [.gen ⟨300⟩] [] with version := 2 } },
    timestamp := 1000, hashing_serialization := true, header_only := true }

/-- A block header of the given dialect. -/
def sample_header (blob_type : BLOB_TYPE) (timestamp nonce : Nat) : block_header :=
  { blob_type := blob_type, major_version := 2, minor_version := 1, timestamp := timestamp,
    prev_id := List.replicate 32 4, nonce := nonce }

/-- A merge-mining block with the given `prev_id` and `nonce` in its header;
the auxiliary block is `sample_parent_block 1`. -/
def sample_block (prev_id : hash) (nonce : Nat) : block :=
  { blob_type := BLOB_TYPE_FORKNOTE2, major_version := 2, minor_version := 1, timestamp := 1000,
    prev_id := prev_id, nonce := nonce, parent_block := sample_parent_block 1,
    miner_tx := sample_tx [.gen ⟨300⟩] [], tx_hashes := [] }

/-- The externals of `sample_externals`, except that the RingCT base sub-codec
reports failure. -/
def sample_externals_rct_fails : Externals :=
  { sample_externals with serialize_rctsig_base := fun _ _ _ => none }

/-- A transaction of the given version and signature type, with the given
inputs, one output and no legacy signatures. -/
def sample_rct_tx (version rct_type : Nat) (vin : List txin_v) : transaction :=
  { blob_type := BLOB_TYPE_CRYPTONOTE, version := version, unlock_time := 0, vin := vin,
    vout := [⟨7, .to_key ⟨List.replicate 32 9⟩⟩], extra := [],
    output_unlock_times := [], type := 0, signatures := [],
    rct_signatures := ⟨rct_type, [41], ⟨[42]⟩⟩ }

/-- A key input without key offsets. -/
def sample_key_input_empty : txin_v :=
  .to_key { amount := 5, key_offsets := [], k_image := List.replicate 32 7 }

/-- A prefix of the given dialect and version with one coinbase input, one
output, two unlock times and the type code 9. -/
def prefix_sample (blob_type : BLOB_TYPE) (version : Nat) : transaction_prefix :=
  { blob_type := blob_type, version := version, unlock_time := 0,
    vin := [.gen ⟨300⟩], vout := [⟨7, .to_key ⟨List.replicate 32 9⟩⟩], extra := [],
    output_unlock_times := [1, 2], type := 9 }

/-- A script-hash input with one key, a two-byte script and a one-byte
signature set. -/
def sample_scripthash_input : txin_v :=
  .to_scripthash { prev := List.replicate 32 3, prevout := 200,
                   script := { keys := [List.replicate 32 8], script := [1, 255] },
                   sigset := [9] }

/-- Stand-ins for the loading side of the RingCT sub-codec: nothing is read. -/
def sample_read_externals : ReadExternals :=
  { read_rctsig_base := fun sig _ _ input => some (sig, input),
    read_rctsig_prunable := fun p _ _ _ _ input => some (p, input) }

/-- A plain-dialect block with a coinbase transaction of version 1 without
signatures and without further transactions. -/
def sample_plain_block : block :=
  { blob_type := BLOB_TYPE_CRYPTONOTE, major_version := 2, minor_version := 1,
    timestamp := 1000, prev_id := List.replicate 32 4, nonce := 66000,
    parent_block := sample_parent_block 1, miner_tx := sample_tx [.gen ⟨300⟩] [],
    tx_hashes := [] }

/-- The block object that a reader of the plain dialect starts from: every
field is empty or zero. -/
def empty_plain_block : block :=
  { blob_type := BLOB_TYPE_CRYPTONOTE, major_version := 0, minor_version := 0, timestamp := 0,
    prev_id := List.replicate 32 0, nonce := 0,
    parent_block :=
      { major_version := 0, minor_version := 0, prev_id := List.replicate 32 0, nonce := 0,
        number_of_transactions := 0, miner_tx_branch := [],
        miner_tx :=
          { blob_type := BLOB_TYPE_CRYPTONOTE, version := 0, unlock_time := 0, vin := [],
            vout := [], extra := [], output_unlock_times := [], type := 0, signatures := [],
            rct_signatures := ⟨0, [], ⟨[]⟩⟩ },
        blockchain_branch := [] },
    miner_tx :=
      { blob_type := BLOB_TYPE_CRYPTONOTE, version := 0, unlock_time := 0, vin := [],
        vout := [], extra := [], output_unlock_times := [], type := 0, signatures := [],
        rct_signatures := ⟨0, [], ⟨[]⟩⟩ },
    tx_hashes := [] }

/-! ## The varint writer -/

/-- Any two bounds on the number of continuation bytes that are at least the
value give the same bytes. -/
theorem write_varint_aux_fuel :
    ∀ (fuel fuel2 i : Nat), i ≤ fuel → i ≤ fuel2 →
      write_varint_aux fuel i = write_varint_aux fuel2 i := by
  intro fuel
  induction fuel with
  | zero =>
    intro fuel2 i hi _
    have : i = 0 := by omega
    subst this
    cases fuel2 <;> rfl
  | succ fuel ih =>
    intro fuel2 i hi hi2
    cases fuel2 with
    | zero =>
      have : i = 0 := by omega
      subst this
      rfl
    | succ fuel2 =>
      by_cases hlt : i < 128
      · simp [write_varint_aux, hlt]
      · simp only [write_varint_aux, hlt, if_false]
        rw [ih fuel2 (i / 128) (by omega) (by omega)]

/-- The loop of the varint writer: while the value is 128 or more, emit its
low seven bits with the high bit set and shift; then emit what is left. -/
theorem serialize_varint_step (i : Nat) :
    serialize_varint i =
      if i < 128 then [i] else (i % 128 + 128) :: serialize_varint (i / 128) := by
  unfold serialize_varint
  cases i with
  | zero => rfl
  | succ j =>
    by_cases hlt : j + 1 < 128
    · simp [write_varint_aux, hlt]
    · simp only [write_varint_aux, hlt, if_false]
      rw [write_varint_aux_fuel j ((j + 1) / 128) ((j + 1) / 128) (by omega) (by omega)]

/-! ## Writers that cannot fail -/

theorem serialize_elements_some {α : Type} (f : α → Option Bytes)
    (hf : ∀ a, ∃ bs, f a = some bs) (v : List α) :
    ∃ bs, serialize_elements f v = some bs := by
  induction v with
  | nil => exact ⟨[], rfl⟩
  | cons e es ih =>
    obtain ⟨b, hb⟩ := hf e
    obtain ⟨bs, hbs⟩ := ih
    exact ⟨b ++ bs, by simp [serialize_elements, hb, hbs]⟩

theorem serialize_vector_some {α : Type} (f : α → Option Bytes)
    (hf : ∀ a, ∃ bs, f a = some bs) (v : List α) :
    ∃ bs, serialize_vector f v = some bs := by
  obtain ⟨bs, hbs⟩ := serialize_elements_some f hf v
  exact ⟨serialize_varint v.length ++ bs, by simp [serialize_vector, hbs]⟩

theorem serialize_element_varint_some (e : Nat) :
    ∃ bs, serialize_element_varint e = some bs := ⟨_, rfl⟩

theorem serialize_element_byte_some (e : Nat) :
    ∃ bs, serialize_element_byte e = some bs := ⟨_, rfl⟩

theorem serialize_element_blob_some (e : Bytes) :
    ∃ bs, serialize_element_blob e = some bs := ⟨_, rfl⟩

theorem txout_to_script_some (x : txout_to_script) : ∃ bs, x.do_serialize = some bs := by
  obtain ⟨k, hk⟩ := serialize_vector_some _ serialize_element_blob_some x.keys
  obtain ⟨c, hc⟩ := serialize_vector_some _ serialize_element_byte_some x.script
  exact ⟨k ++ c, by simp [txout_to_script.do_serialize, hk, hc]⟩

theorem txin_v_some (x : txin_v) : ∃ bs, x.do_serialize = some bs := by
  cases x with
  | gen x => simp [txin_v.do_serialize, txin_gen.do_serialize]
  | to_script x =>
    obtain ⟨c, hc⟩ := serialize_vector_some _ serialize_element_byte_some x.sigset
    simp [txin_v.do_serialize, txin_to_script.do_serialize, hc]
  | to_scripthash x =>
    obtain ⟨k, hk⟩ := txout_to_script_some x.script
    obtain ⟨c, hc⟩ := serialize_vector_some _ serialize_element_byte_some x.sigset
    simp [txin_v.do_serialize, txin_to_scripthash.do_serialize, hk, hc]
  | to_key x =>
    obtain ⟨c, hc⟩ := serialize_vector_some _ serialize_element_varint_some x.key_offsets
    simp [txin_v.do_serialize, txin_to_key.do_serialize, hc]

theorem tx_out_some (x : tx_out) : ∃ bs, x.do_serialize = some bs := by
  cases x with
  | mk amount target =>
    cases target with
    | to_script y =>
      obtain ⟨k, hk⟩ := txout_to_script_some y
      simp [tx_out.do_serialize, txout_target_v.do_serialize, hk]
    | to_scripthash y => simp [tx_out.do_serialize, txout_target_v.do_serialize]
    | to_key y => simp [tx_out.do_serialize, txout_target_v.do_serialize]

theorem serialize_loki_head_some (p : transaction_prefix) :
    ∃ bs, p.serialize_loki_head = some bs := by
  obtain ⟨c, hc⟩ := serialize_vector_some _ serialize_element_varint_some p.output_unlock_times
  unfold transaction_prefix.serialize_loki_head
  split
  · by_cases h3 : p.version = loki_version_3_per_output_unlock_times
    · simp [hc, h3]
    · simp [hc, h3]
  · exact ⟨_, rfl⟩

/-- The prefix writer, once the three vectors and the Loki head are known to
have been written: only the two Loki checks decide the outcome. -/
theorem transaction_prefix_do_serialize_eq (p : transaction_prefix) :
    ∃ front extra : Bytes,
      p.do_serialize =
        if p.blob_type = BLOB_TYPE_CRYPTONOTE_LOKI ∧
            p.version ≥ loki_version_3_per_output_unlock_times ∧
            p.vout.length ≠ p.output_unlock_times.length then none
        else p.serialize_loki_type.map (fun loki_type => front ++ extra ++ loki_type) := by
  obtain ⟨h, hh⟩ := serialize_loki_head_some p
  obtain ⟨i, hi⟩ := serialize_vector_some _ txin_v_some p.vin
  obtain ⟨o, ho⟩ := serialize_vector_some _ tx_out_some p.vout
  obtain ⟨e, he⟩ := serialize_vector_some _ serialize_element_byte_some p.extra
  refine ⟨serialize_varint p.version ++ h ++ serialize_varint p.unlock_time ++ i ++ o, e, ?_⟩
  unfold transaction_prefix.do_serialize
  simp only [hh, hi, ho, he, Option.bind_eq_bind, Option.some_bind, Option.pure_def]
  split
  · rfl
  · cases p.serialize_loki_type <;> simp

theorem serialize_signatures_some (slot : List signature) :
    ∃ bs, serialize_signatures slot = some bs := by
  induction slot with
  | nil => exact ⟨[], rfl⟩
  | cons s rest ih =>
    obtain ⟨bs, hbs⟩ := ih
    exact ⟨serialize_blob s ++ bs, by simp [serialize_signatures, hbs]⟩

/-- With signatures present, the loop succeeds exactly when every slot from
index `i` on has the size that its input expects. -/
theorem signature_loop_checked (signatures : List (List signature)) :
    ∀ (rest : List txin_v) (i : Nat),
      (transaction.serialize_signature_loop signatures false i rest).isSome ↔
        ∀ (j : Nat) (hj : j < rest.length),
          (signatures.getD (i + j) []).length = transaction.get_signature_size rest[j] := by
  intro rest
  induction rest with
  | nil => intro i; simp [transaction.serialize_signature_loop]
  | cons tx_in rest ih =>
    intro i
    obtain ⟨slot, hslot⟩ := serialize_signatures_some (signatures.getD i [])
    by_cases hsz : transaction.get_signature_size tx_in = (signatures.getD i []).length
    · simp only [List.getD_eq_getElem?_getD] at hslot hsz
      have hstep :
          (transaction.serialize_signature_loop signatures false i (tx_in :: rest)).isSome ↔
            (transaction.serialize_signature_loop signatures false (i + 1) rest).isSome := by
        cases hrest : transaction.serialize_signature_loop signatures false (i + 1) rest <;>
          simp [transaction.serialize_signature_loop, hsz, hslot, hrest]
      rw [hstep, ih (i + 1)]
      constructor
      · intro h j hj
        cases j with
        | zero => simpa using hsz.symm
        | succ j =>
          have := h j (by simpa using hj)
          simpa [Nat.add_assoc, Nat.add_comm 1 j] using this
      · intro h j hj
        have := h (j + 1) (by simpa using hj)
        simpa [Nat.add_assoc, Nat.add_comm 1 j] using this
    · simp only [List.getD_eq_getElem?_getD] at hslot hsz
      have hnone :
          transaction.serialize_signature_loop signatures false i (tx_in :: rest) = none := by
        simp [transaction.serialize_signature_loop, hsz]
      rw [hnone]
      constructor
      · intro h; simp at h
      · intro h
        exact absurd (h 0 (by simp)).symm (by simpa using hsz)

/-- Without signatures, the loop writes nothing and succeeds exactly when no
input expects a signature. -/
theorem signature_loop_not_expected (signatures : List (List signature)) :
    ∀ (rest : List txin_v) (i : Nat),
      transaction.serialize_signature_loop signatures true i rest =
        if ∀ x ∈ rest, transaction.get_signature_size x = 0 then some [] else none := by
  intro rest
  induction rest with
  | nil => intro i; simp [transaction.serialize_signature_loop]
  | cons tx_in rest ih =>
    intro i
    by_cases hsz : transaction.get_signature_size tx_in = 0
    · simp [transaction.serialize_signature_loop, hsz, ih (i + 1)]
    · have hne : ¬ (0 = transaction.get_signature_size tx_in) := fun h => hsz h.symm
      simp [transaction.serialize_signature_loop, hsz, hne]

/-- Once the prefix is written, the transaction writer succeeds exactly when
its signature section does. -/
theorem transaction_do_serialize_of_prefix (E : Externals) (t : transaction) (pre : Bytes)
    (hp : t.totransaction_prefix.do_serialize = some pre) :
    t.do_serialize E = (t.serialize_signature_section E).map (fun sig => pre ++ sig) := by
  unfold transaction.do_serialize
  rw [hp]
  cases t.serialize_signature_section E <;> rfl

theorem serialize_branch_some (branch : List hash) :
    ∀ (count i : Nat), ∃ bs, serialize_branch branch count i = some bs := by
  intro count
  induction count with
  | zero => intro i; exact ⟨[], rfl⟩
  | succ count ih =>
    intro i
    obtain ⟨bs, hbs⟩ := ih (i + 1)
    simp [serialize_branch, hbs]

/-- The Merkle root is written unless the transaction hash of a miner
transaction of version 0 or 1 cannot be computed in hashing mode. -/
theorem serialize_merkle_root_isSome (E : Externals) (s : serializable_bytecoin_block) :
    (s.serialize_merkle_root E).isSome ↔
      (s.hashing_serialization = true → s.b.miner_tx.version < 2 →
        (E.get_transaction_hash s.b.miner_tx).isSome) := by
  unfold serializable_bytecoin_block.serialize_merkle_root
    serializable_bytecoin_block.miner_tx_hash
  by_cases hh : s.hashing_serialization = true
  · by_cases hv : s.b.miner_tx.version < 2
    · cases hx : E.get_transaction_hash s.b.miner_tx <;> simp [hh, hv, hx]
    · simp [hh, hv]
  · simp [hh]

/-- In full mode the part after `number_of_transactions` is written exactly
when the three checks of lines 389, 402 and 408 pass and the miner
transaction is written. -/
theorem serialize_full_part_isSome (E : Externals) (s : serializable_bytecoin_block)
    (hfull : s.header_only = false) :
    (s.serialize_full_part E).isSome ↔
      s.b.miner_tx_branch.length = E.tree_depth s.b.number_of_transactions ∧
        (s.b.miner_tx.do_serialize E).isSome ∧
        E.get_mm_tag_from_extra s.b.miner_tx.extra = some s.b.blockchain_branch.length := by
  unfold serializable_bytecoin_block.serialize_full_part
  by_cases hlen : s.b.miner_tx_branch.length = E.tree_depth s.b.number_of_transactions
  · obtain ⟨mb, hmb⟩ :=
      serialize_branch_some s.b.miner_tx_branch (E.tree_depth s.b.number_of_transactions) 0
    cases htx : s.b.miner_tx.do_serialize E with
    | none => simp [hfull, hlen, hmb, htx]
    | some tx =>
      cases htag : E.get_mm_tag_from_extra s.b.miner_tx.extra with
      | none => simp [hfull, hlen, hmb, htx, htag]
      | some depth =>
        obtain ⟨cb, hcb⟩ := serialize_branch_some s.b.blockchain_branch depth 0
        by_cases hd : depth = s.b.blockchain_branch.length
        · subst hd
          simp [hfull, hlen, hmb, htx, htag, hcb]
        · simp [hfull, hlen, hmb, htx, htag, hd, hcb]
  · simp [hfull, hlen]

/-- The auxiliary block is written exactly when its Merkle root is, it has a
transaction, and its full part is written. -/
theorem serializable_bytecoin_block_isSome (E : Externals)
    (s : serializable_bytecoin_block) :
    (s.do_serialize E).isSome ↔
      (s.serialize_merkle_root E).isSome ∧ 1 ≤ s.b.number_of_transactions ∧
        (s.serialize_full_part E).isSome := by
  unfold serializable_bytecoin_block.do_serialize
  cases hroot : s.serialize_merkle_root E with
  | none => simp
  | some root =>
    by_cases hn : s.b.number_of_transactions < 1
    · have : ¬ 1 ≤ s.b.number_of_transactions := by omega
      simp [hn, this]
    · have : 1 ≤ s.b.number_of_transactions := by omega
      cases hpart : s.serialize_full_part E <;> simp [hn, this, hpart]

/-- The loop of line 369 overwrites the entries `i .. i + count - 1` of the
blob with those of the hash and leaves the others alone. -/
theorem copy_hash_into_blob_getElem? (p : hash) :
    ∀ (count i : Nat) (blobdata : Bytes) (k : Nat),
      (copy_hash_into_blob p count i blobdata)[k]? =
        if i ≤ k ∧ k < i + count ∧ k < blobdata.length then some (p.getD k 0)
        else blobdata[k]? := by
  intro count
  induction count with
  | zero =>
    intro i blobdata k
    have : ¬ (i ≤ k ∧ k < i + 0 ∧ k < blobdata.length) := by omega
    rw [copy_hash_into_blob, if_neg this]
  | succ count ih =>
    intro i blobdata k
    rw [copy_hash_into_blob, ih, List.getElem?_set, List.length_set]
    by_cases hik : i = k
    · subst hik
      by_cases hlt : i < blobdata.length
      · have h1 : ¬ (i + 1 ≤ i ∧ i < i + 1 + count ∧ i < blobdata.length) := by omega
        have h2 : i ≤ i ∧ i < i + (count + 1) ∧ i < blobdata.length := by omega
        simp [h1, h2, hlt]
      · have h1 : ¬ (i + 1 ≤ i ∧ i < i + 1 + count ∧ i < blobdata.length) := by omega
        have h2 : ¬ (i ≤ i ∧ i < i + (count + 1) ∧ i < blobdata.length) := by omega
        have h3 : blobdata[i]? = none := List.getElem?_eq_none (by omega)
        simp [h1, h2, hlt, h3]
    · by_cases hc : i + 1 ≤ k ∧ k < i + 1 + count ∧ k < blobdata.length
      · have h2 : i ≤ k ∧ k < i + (count + 1) ∧ k < blobdata.length := by omega
        simp [hc, h2]
      · have h2 : ¬ (i ≤ k ∧ k < i + (count + 1) ∧ k < blobdata.length) := by omega
        simp [hc, h2, hik]

/-- The blob hashed for a miner transaction of version 2 or more is the
prefix hash followed by the last 64 bytes of `data`. -/
theorem miner_tx_hash_blob_eq (prefix_hash : hash) (hlen : prefix_hash.length = 32) :
    miner_tx_hash_blob prefix_hash = prefix_hash ++ miner_tx_hash_data.drop 32 := by
  apply List.ext_getElem?
  intro k
  unfold miner_tx_hash_blob HASH_SIZE
  rw [copy_hash_into_blob_getElem?, List.getElem?_append]
  have hdata : miner_tx_hash_data.length = 96 := by decide
  by_cases hk : k < 32
  · have h1 : 0 ≤ k ∧ k < 0 + 32 ∧ k < miner_tx_hash_data.length := by omega
    have h2 : k < prefix_hash.length := by omega
    rw [if_pos h1, if_pos h2, List.getD_eq_getElem _ _ h2, List.getElem?_eq_getElem h2]
  · have h1 : ¬ (0 ≤ k ∧ k < 0 + 32 ∧ k < miner_tx_hash_data.length) := by omega
    have h2 : ¬ k < prefix_hash.length := by omega
    rw [if_neg h1, if_neg h2, List.getElem?_drop, hlen]
    congr 1
    omega

/-- Outside the Loki dialect the prefix writer has no check that can fail and
writes neither the unlock times nor the type code. -/
theorem transaction_prefix_do_serialize_plain (p : transaction_prefix)
    (hb : p.blob_type ≠ BLOB_TYPE_CRYPTONOTE_LOKI) :
    ∃ vin vout extra : Bytes,
      serialize_vector txin_v.do_serialize p.vin = some vin ∧
        serialize_vector tx_out.do_serialize p.vout = some vout ∧
        serialize_vector serialize_element_byte p.extra = some extra ∧
        p.do_serialize =
          some (serialize_varint p.version ++ serialize_varint p.unlock_time ++ vin ++ vout ++
            extra) := by
  obtain ⟨i, hi⟩ := serialize_vector_some _ txin_v_some p.vin
  obtain ⟨o, ho⟩ := serialize_vector_some _ tx_out_some p.vout
  obtain ⟨e, he⟩ := serialize_vector_some _ serialize_element_byte_some p.extra
  refine ⟨i, o, e, hi, ho, he, ?_⟩
  simp [ transaction_prefix.do_serialize, transaction_prefix.serialize_loki_head,
    transaction_prefix.serialize_loki_type, hb, hi, ho, he]

/-- The delegated signature section when there is at least one input. -/
theorem serialize_rct_signatures_of_inputs (E : Externals) (t : transaction)
    (hvin : t.vin ≠ []) :
    t.serialize_rct_signatures E =
      (E.serialize_rctsig_base t.rct_signatures t.vin.length t.vout.length).bind
        (fun base =>
          if t.rct_signatures.type ≠ RCTTypeNull then
            (E.serialize_rctsig_prunable t.rct_signatures.p t.rct_signatures.type
              t.vin.length t.vout.length t.mixin).map (fun prunable => base ++ prunable)
          else some base) := by
  have hne : t.vin.isEmpty = false := by
    cases hv : t.vin with
    | nil => exact absurd hv hvin
    | cons a l => rfl
  unfold transaction.serialize_rct_signatures
  cases hbase : E.serialize_rctsig_base t.rct_signatures t.vin.length t.vout.length with
  | none => simp [hne]
  | some base =>
    by_cases hnull : t.rct_signatures.type = RCTTypeNull
    · simp [hne, hnull]
    · cases hpr : E.serialize_rctsig_prunable t.rct_signatures.p t.rct_signatures.type
          t.vin.length t.vout.length t.mixin <;> simp [hne, hnull, hpr]

/-- The transaction writer fails when its signature section fails. -/
theorem transaction_do_serialize_none_of_section (E : Externals) (t : transaction)
    (h : t.serialize_signature_section E = none) : t.do_serialize E = none := by
  unfold transaction.do_serialize
  cases t.totransaction_prefix.do_serialize <;> simp [h]

/-! ## Reading back what was written: primitives -/

theorem serialize_varint_length_pos (v : Nat) : 1 ≤ (serialize_varint v).length := by
  rw [serialize_varint_step]
  split <;> simp

/-- The varint reader, started in the middle of a number, reads back what the
writer wrote for the remaining high part. -/
theorem read_varint_loop_serialize (bits : Nat) :
    ∀ (v shift write : Nat) (rest : Bytes), v * 2 ^ shift < 2 ^ bits → (shift = 0 ∨ v ≠ 0) →
      read_varint_loop bits shift write (serialize_varint v ++ rest) =
        some (write + v * 2 ^ shift, rest) := by
  intro v
  induction v using Nat.strong_induction_on with
  | _ v ih =>
    intro shift write rest hfit hcanon
    rw [serialize_varint_step]
    have hpos : 0 < 2 ^ shift := Nat.two_pow_pos shift
    by_cases hlt : v < 128
    · rw [if_pos hlt]
      have h1 : ¬ (shift + 7 ≥ bits ∧ v ≥ 2 ^ (bits - shift)) := by
        rintro ⟨_, hge⟩
        by_cases hsb : shift ≤ bits
        · have : 2 ^ bits = 2 ^ (bits - shift) * 2 ^ shift := by
            rw [← pow_add, Nat.sub_add_cancel hsb]
          have : 2 ^ (bits - shift) * 2 ^ shift ≤ v * 2 ^ shift :=
            Nat.mul_le_mul_right _ hge
          omega
        · have hv : 1 ≤ v := by
            have : 0 < 2 ^ (bits - shift) := Nat.two_pow_pos _
            omega
          have h2 : 2 ^ bits ≤ 2 ^ shift := Nat.pow_le_pow_right (by norm_num) (by omega)
          have : 1 * 2 ^ shift ≤ v * 2 ^ shift := Nat.mul_le_mul_right _ hv
          omega
      have h2 : ¬ (v = 0 ∧ shift ≠ 0) := by
        rintro ⟨hv, hs⟩
        rcases hcanon with h | h
        · exact hs h
        · exact h hv
      simp only [List.singleton_append, read_varint_loop, h1, h2, hlt, if_false, if_true,
        Nat.mod_eq_of_lt hlt]
      rfl
    · rw [if_neg hlt]
      have hge : 128 ≤ v := by omega
      have hshift : shift + 7 < bits := by
        by_contra hcon
        have h2 : 2 ^ bits ≤ 2 ^ (shift + 7) := Nat.pow_le_pow_right (by norm_num) (by omega)
        have h3 : 2 ^ (shift + 7) = 128 * 2 ^ shift := by rw [pow_add]; ring
        have : 128 * 2 ^ shift ≤ v * 2 ^ shift := Nat.mul_le_mul_right _ hge
        omega
      have h1 : ¬ (shift + 7 ≥ bits ∧ v % 128 + 128 ≥ 2 ^ (bits - shift)) := by
        rintro ⟨h, _⟩; omega
      have h2 : ¬ (v % 128 + 128 = 0 ∧ shift ≠ 0) := by
        rintro ⟨h, _⟩; omega
      have h3 : ¬ (v % 128 + 128 < 128) := by omega
      have hmod : (v % 128 + 128) % 128 = v % 128 := by omega
      have hpow : 2 ^ (shift + 7) = 128 * 2 ^ shift := by rw [pow_add]; ring
      have hsplit : v * 2 ^ shift = v % 128 * 2 ^ shift + v / 128 * (128 * 2 ^ shift) := by
        conv_lhs => rw [← Nat.div_add_mod v 128]
        ring
      simp only [List.cons_append, read_varint_loop, h1, h2, h3, if_false, hmod]
      show read_varint_loop bits (shift + 7) _ (serialize_varint (v / 128) ++ rest) = _
      rw [ih (v / 128) (by omega) (shift + 7) _ rest (by rw [hpow]; omega) (Or.inr (by omega)),
        hpow, hsplit]
      simp [Nat.add_assoc]

/-- The varint reader reads back a value that fits the destination. -/
theorem read_varint_serialize (bits v : Nat) (rest : Bytes) (hv : v < 2 ^ bits) :
    read_varint bits (serialize_varint v ++ rest) = some (v, rest) := by
  unfold read_varint
  rw [read_varint_loop_serialize bits v 0 0 rest (by simpa using hv) (Or.inl rfl)]
  simp

/-- The little-endian reader reads back a value that fits `width` bytes. -/
theorem read_int_serialize :
    ∀ (width v : Nat) (rest : Bytes), v < 256 ^ width →
      read_int width (serialize_int width v ++ rest) = some (v, rest) := by
  intro width
  induction width with
  | zero =>
    intro v rest hv
    have : v = 0 := by simpa using hv
    subst this
    rfl
  | succ width ih =>
    intro v rest hv
    have hdiv : v / 256 < 256 ^ width := by
      rw [pow_succ] at hv
      exact Nat.div_lt_of_lt_mul (by rw [Nat.mul_comm]; exact hv)
    have hv2 : v % 256 + 256 * (v / 256) = v := Nat.mod_add_div v 256
    simp only [serialize_int, List.cons_append, read_int]
    show Option.map _ (read_int width (serialize_int width (v / 256) ++ rest)) = _
    rw [ih (v / 256) rest hdiv]
    simp [hv2]

/-- The blob reader reads back a POD of the expected size. -/
theorem read_blob_serialize (size : Nat) (b rest : Bytes) (hb : b.length = size) :
    read_blob size (serialize_blob b ++ rest) = some (b, rest) := by
  subst hb
  simp [read_blob, serialize_blob]

/-- When every element takes at least one byte, the elements take at least as
many bytes as there are elements. -/
theorem serialize_elements_length {α : Type} (f : α → Option Bytes) :
    ∀ (v : List α) (bs : Bytes), (∀ a ∈ v, ∀ b, f a = some b → 1 ≤ b.length) →
      serialize_elements f v = some bs → v.length ≤ bs.length := by
  intro v
  induction v with
  | nil => intro bs _ _; simp
  | cons e es ih =>
    intro bs hlen h
    cases he : f e with
    | none => simp [serialize_elements, he] at h
    | some b =>
      cases hes : serialize_elements f es with
      | none => simp [serialize_elements, he, hes] at h
      | some others =>
        simp [serialize_elements, he, hes] at h
        subst h
        have h1 := hlen e (by simp) b he
        have h2 := ih others (fun a ha => hlen a (by simp [ha])) hes
        simp only [List.length_append, List.length_cons]
        omega

/-- The element loop of the reader reads back what the element loop of the
writer wrote, when each element is read back. -/
theorem read_elements_serialize {α : Type} (f : α → Option Bytes)
    (g : Bytes → Option (α × Bytes)) :
    ∀ (v : List α) (bs rest : Bytes),
      (∀ a ∈ v, ∀ b r, f a = some b → g (b ++ r) = some (a, r)) →
      serialize_elements f v = some bs →
      read_elements g v.length (bs ++ rest) = some (v, rest) := by
  intro v
  induction v with
  | nil =>
    intro bs rest _ h
    simp [serialize_elements] at h
    subst h
    rfl
  | cons e es ih =>
    intro bs rest hrt h
    cases he : f e with
    | none => simp [serialize_elements, he] at h
    | some b =>
      cases hes : serialize_elements f es with
      | none => simp [serialize_elements, he, hes] at h
      | some others =>
        simp [serialize_elements, he, hes] at h
        subst h
        have h1 := hrt e (by simp) b (others ++ rest) he
        have h2 := ih others rest (fun a ha => hrt a (by simp [ha])) hes
        simp [read_elements, List.append_assoc, h1, h2]

/-- The vector reader reads back what the vector writer wrote, when each
element is read back and takes at least one byte. -/
theorem read_vector_serialize {α : Type} (f : α → Option Bytes)
    (g : Bytes → Option (α × Bytes)) (v : List α) (bs rest : Bytes)
    (hcount : v.length < 2 ^ 64)
    (hrt : ∀ a ∈ v, ∀ b r, f a = some b → g (b ++ r) = some (a, r))
    (hlen : ∀ a ∈ v, ∀ b, f a = some b → 1 ≤ b.length)
    (h : serialize_vector f v = some bs) :
    read_vector g (bs ++ rest) = some (v, rest) := by
  cases hes : serialize_elements f v with
  | none => simp [serialize_vector, hes] at h
  | some elements =>
    simp [serialize_vector, hes] at h
    subst h
    have h1 := serialize_elements_length f v elements hlen hes
    have h2 := read_elements_serialize f g v elements rest hrt hes
    have h3 : ¬ (elements.length + rest.length < v.length) := by omega
    simp [read_vector, List.append_assoc, read_varint_serialize 64 v.length _ hcount, h2, h3]

/-! ## Reading back what was written: inputs and outputs -/

theorem read_byte_vector_serialize (v bs rest : Bytes) (hv : wf_byte_vector v)
    (h : serialize_vector serialize_element_byte v = some bs) :
    read_vector (read_int 1) (bs ++ rest) = some (v, rest) := by
  refine read_vector_serialize serialize_element_byte (read_int 1) v bs rest hv.1 ?_ ?_ h
  · intro a ha b r hb
    simp only [serialize_element_byte, Option.some.injEq] at hb
    subst hb
    exact read_int_serialize 1 a r (by simpa using hv.2 a ha)
  · intro a _ b hb
    simp only [serialize_element_byte, Option.some.injEq] at hb
    subst hb
    simp [serialize_int]

theorem read_u64_vector_serialize (v : List Nat) (bs rest : Bytes) (hv : wf_u64_vector v)
    (h : serialize_vector serialize_element_varint v = some bs) :
    read_vector (read_varint 64) (bs ++ rest) = some (v, rest) := by
  refine read_vector_serialize serialize_element_varint (read_varint 64) v bs rest hv.1 ?_ ?_ h
  · intro a ha b r hb
    simp only [serialize_element_varint, Option.some.injEq] at hb
    subst hb
    exact read_varint_serialize 64 a r (hv.2 a ha)
  · intro a _ b hb
    simp only [serialize_element_varint, Option.some.injEq] at hb
    subst hb
    exact serialize_varint_length_pos a

theorem read_pod_vector_serialize (size : Nat) (hsize : 1 ≤ size) (v : List Bytes)
    (bs rest : Bytes) (hv : wf_pod_vector size v)
    (h : serialize_vector serialize_element_blob v = some bs) :
    read_vector (read_blob size) (bs ++ rest) = some (v, rest) := by
  refine read_vector_serialize serialize_element_blob (read_blob size) v bs rest hv.1 ?_ ?_ h
  · intro a ha b r hb
    simp only [serialize_element_blob, Option.some.injEq] at hb
    subst hb
    exact read_blob_serialize size a r (hv.2 a ha)
  · intro a ha b hb
    simp only [serialize_element_blob, serialize_blob, Option.some.injEq] at hb
    subst hb
    rw [hv.2 a ha]
    exact hsize

theorem txout_to_script_roundtrip (x : txout_to_script) (bs rest : Bytes) (hx : x.wf)
    (h : x.do_serialize = some bs) :
    txout_to_script.do_deserialize (bs ++ rest) = some (x, rest) := by
  obtain ⟨k, hk⟩ := serialize_vector_some _ serialize_element_blob_some x.keys
  obtain ⟨c, hc⟩ := serialize_vector_some _ serialize_element_byte_some x.script
  simp [txout_to_script.do_serialize, hk, hc] at h
  subst h
  have h1 := read_pod_vector_serialize 32 (by norm_num) x.keys k (c ++ rest) hx.1 hk
  have h2 := read_byte_vector_serialize x.script c rest hx.2 hc
  simp [txout_to_script.do_deserialize, List.append_assoc, h1, h2]

theorem txin_v_roundtrip (x : txin_v) (bs rest : Bytes) (hx : x.wf)
    (h : x.do_serialize = some bs) : txin_v.do_deserialize (bs ++ rest) = some (x, rest) := by
  cases x with
  | gen y =>
    simp [txin_v.do_serialize, txin_gen.do_serialize] at h
    subst h
    have h1 := read_varint_serialize 64 y.height rest hx
    simp [txin_v.do_deserialize, txin_gen.do_deserialize, h1]
  | to_script y =>
    obtain ⟨c, hc⟩ := serialize_vector_some _ serialize_element_byte_some y.sigset
    simp [txin_v.do_serialize, txin_to_script.do_serialize, hc] at h
    subst h
    have h1 := read_blob_serialize 32 y.prev (serialize_varint y.prevout ++ (c ++ rest)) hx.1
    have h2 := read_varint_serialize 64 y.prevout (c ++ rest) hx.2.1
    have h3 := read_byte_vector_serialize y.sigset c rest hx.2.2 hc
    simp [txin_v.do_deserialize, txin_to_script.do_deserialize, List.append_assoc, h1, h2, h3]
  | to_scripthash y =>
    obtain ⟨k, hk⟩ := txout_to_script_some y.script
    obtain ⟨c, hc⟩ := serialize_vector_some _ serialize_element_byte_some y.sigset
    simp [txin_v.do_serialize, txin_to_scripthash.do_serialize, hk, hc] at h
    subst h
    have h1 := read_blob_serialize 32 y.prev
      (serialize_varint y.prevout ++ (k ++ (c ++ rest))) hx.1
    have h2 := read_varint_serialize 64 y.prevout (k ++ (c ++ rest)) hx.2.1
    have h3 := txout_to_script_roundtrip y.script k (c ++ rest) hx.2.2.1 hk
    have h4 := read_byte_vector_serialize y.sigset c rest hx.2.2.2 hc
    simp [txin_v.do_deserialize, txin_to_scripthash.do_deserialize, List.append_assoc, h1, h2,
      h3, h4]
  | to_key y =>
    obtain ⟨c, hc⟩ := serialize_vector_some _ serialize_element_varint_some y.key_offsets
    simp [txin_v.do_serialize, txin_to_key.do_serialize, hc] at h
    subst h
    have h1 := read_varint_serialize 64 y.amount (c ++ (serialize_blob y.k_image ++ rest)) hx.1
    have h2 := read_u64_vector_serialize y.key_offsets c (serialize_blob y.k_image ++ rest)
      hx.2.1 hc
    have h3 := read_blob_serialize 32 y.k_image rest hx.2.2
    simp [txin_v.do_deserialize, txin_to_key.do_deserialize, List.append_assoc, h1, h2, h3]

theorem txout_target_v_roundtrip (x : txout_target_v) (bs rest : Bytes) (hx : x.wf)
    (h : x.do_serialize = some bs) :
    txout_target_v.do_deserialize (bs ++ rest) = some (x, rest) := by
  cases x with
  | to_script y =>
    obtain ⟨k, hk⟩ := txout_to_script_some y
    simp [txout_target_v.do_serialize, hk] at h
    subst h
    have h1 := txout_to_script_roundtrip y k rest hx hk
    simp [txout_target_v.do_deserialize, h1]
  | to_scripthash y =>
    simp [txout_target_v.do_serialize] at h
    subst h
    have h1 := read_blob_serialize 32 y.hash rest hx
    simp [txout_target_v.do_deserialize, h1]
  | to_key y =>
    simp [txout_target_v.do_serialize] at h
    subst h
    have h1 := read_blob_serialize 32 y.key rest hx
    simp [txout_target_v.do_deserialize, h1]

theorem tx_out_roundtrip (x : tx_out) (bs rest : Bytes) (hx : x.wf)
    (h : x.do_serialize = some bs) : tx_out.do_deserialize (bs ++ rest) = some (x, rest) := by
  cases htgt : x.target.do_serialize with
  | none => simp [tx_out.do_serialize, htgt] at h
  | some tb =>
    simp [tx_out.do_serialize, htgt] at h
    subst h
    have h1 := read_varint_serialize 64 x.amount (tb ++ rest) hx.1
    have h2 := txout_target_v_roundtrip x.target tb rest hx.2 htgt
    simp [tx_out.do_deserialize, List.append_assoc, h1, h2]

theorem txin_v_length_pos (x : txin_v) (bs : Bytes) (h : x.do_serialize = some bs) :
    1 ≤ bs.length := by
  cases x <;> simp only [txin_v.do_serialize, Option.map_eq_some'] at h <;>
    obtain ⟨body, _, hb⟩ := h <;> subst hb <;> simp

theorem tx_out_length_pos (x : tx_out) (bs : Bytes) (h : x.do_serialize = some bs) :
    1 ≤ bs.length := by
  cases htgt : x.target.do_serialize with
  | none => simp [tx_out.do_serialize, htgt] at h
  | some tb =>
    simp [tx_out.do_serialize, htgt] at h
    subst h
    have := serialize_varint_length_pos x.amount
    simp only [List.length_append]
    omega

/-- The elements of a `std::vector<uint64_t>` are written as their varints,
one after another. -/
theorem serialize_elements_varint (v : List Nat) :
    serialize_elements serialize_element_varint v = some (v.flatMap serialize_varint) := by
  induction v with
  | nil => rfl
  | cons e es ih => simp [serialize_elements, serialize_element_varint, ih]

/-! ## Reading back what was written: plain-dialect blocks -/

/-- A header outside the merge-mining dialect is read back. -/
theorem block_header_roundtrip (h h0 : block_header) (bs rest : Bytes)
    (hb : h.blob_type ≠ BLOB_TYPE_FORKNOTE2) (hb0 : h0.blob_type = h.blob_type) (hwf : h.wf)
    (hs : h.do_serialize = some bs) : h0.do_deserialize (bs ++ rest) = some (h, rest) := by
  obtain ⟨h1, h2, h3, h4, h5⟩ := hwf
  simp [block_header.do_serialize, hb] at hs
  subst hs
  have r1 := read_varint_serialize 8 h.major_version
    (serialize_varint h.minor_version ++ (serialize_varint h.timestamp ++
      (serialize_blob h.prev_id ++ (serialize_int 4 h.nonce ++ rest)))) h1
  have r2 := read_varint_serialize 8 h.minor_version
    (serialize_varint h.timestamp ++
      (serialize_blob h.prev_id ++ (serialize_int 4 h.nonce ++ rest))) h2
  have r3 := read_varint_serialize 64 h.timestamp
    (serialize_blob h.prev_id ++ (serialize_int 4 h.nonce ++ rest)) h3
  have r4 := read_blob_serialize 32 h.prev_id (serialize_int 4 h.nonce ++ rest) h4
  have r5 := read_int_serialize 4 h.nonce rest (by norm_num at h5 ⊢; exact h5)
  simp [block_header.do_deserialize, List.append_assoc, r1, r2, r3, r4, r5, hb0, hb]

/-- Outside the Loki dialect the bytes of a prefix do not depend on the unlock
times of the outputs or on the type code. -/
theorem transaction_prefix_do_serialize_ignores_loki (p : transaction_prefix)
    (hb : p.blob_type ≠ BLOB_TYPE_CRYPTONOTE_LOKI) (output_unlock_times : List Nat)
    (type : Nat) :
    transaction_prefix.do_serialize
        { p with output_unlock_times := output_unlock_times, type := type } =
      p.do_serialize := by
  obtain ⟨vin, vout, extra, hi, ho, he, hp⟩ := transaction_prefix_do_serialize_plain p hb
  obtain ⟨vin2, vout2, extra2, hi2, ho2, he2, hp2⟩ :=
    transaction_prefix_do_serialize_plain
      { p with output_unlock_times := output_unlock_times, type := type } hb
  simp only [hi, ho, he, Option.some.injEq] at hi2 ho2 he2
  rw [hp, hp2, hi2, ho2, he2]

/-- Outside the Loki dialect a prefix is read back, except for the two Loki
fields, which keep the values of the object that is filled. -/
theorem transaction_prefix_roundtrip_plain (p p0 : transaction_prefix) (bs rest : Bytes)
    (hb : p.blob_type ≠ BLOB_TYPE_CRYPTONOTE_LOKI) (hb0 : p0.blob_type = p.blob_type)
    (hwf : p.wf) (hs : p.do_serialize = some bs) :
    p0.do_deserialize (bs ++ rest) =
      some ({ p with output_unlock_times := p0.output_unlock_times, type := p0.type },
        rest) := by
  obtain ⟨hver, hunlock, hvin, hvout, hextra, _, _⟩ := hwf
  obtain ⟨vin, vout, extra, hi, ho, he, hp⟩ := transaction_prefix_do_serialize_plain p hb
  rw [hp] at hs
  simp only [Option.some.injEq] at hs
  subst hs
  have r1 := read_varint_serialize 64 p.version
    (serialize_varint p.unlock_time ++ (vin ++ (vout ++ (extra ++ rest)))) hver
  have r2 := read_varint_serialize 64 p.unlock_time (vin ++ (vout ++ (extra ++ rest))) hunlock
  have r3 := read_vector_serialize txin_v.do_serialize txin_v.do_deserialize p.vin vin
    (vout ++ (extra ++ rest)) hvin.1
    (fun a ha b r hab => txin_v_roundtrip a b r (hvin.2 a ha) hab)
    (fun a _ b hab => txin_v_length_pos a b hab) hi
  have r4 := read_vector_serialize tx_out.do_serialize tx_out.do_deserialize p.vout vout
    (extra ++ rest) hvout.1
    (fun a ha b r hab => tx_out_roundtrip a b r (hvout.2 a ha) hab)
    (fun a _ b hab => tx_out_length_pos a b hab) ho
  have r5 := read_byte_vector_serialize p.extra extra rest hextra he
  simp [ transaction_prefix.do_deserialize, transaction_prefix.deserialize_loki_head,
    transaction_prefix.deserialize_loki_type, List.append_assoc, r1, r2, r3, r4, r5, hb0,
    hb]

/-- With a single coinbase input the legacy reader leaves one empty slot and
reads nothing, whatever the signatures of the object that is filled. -/
theorem deserialize_legacy_signatures_coinbase (x : txin_gen)
    (signatures0 : List (List signature)) (input : Bytes) :
    transaction.deserialize_legacy_signatures [.gen x] signatures0 input =
      some ([[]], input) := by
  cases signatures0 with
  | nil =>
    simp [transaction.deserialize_legacy_signatures, transaction.deserialize_signature_loop,
      resize, transaction.get_signature_size, deserialize_signatures, read_elements]
  | cons a l =>
    simp [transaction.deserialize_legacy_signatures, transaction.deserialize_signature_loop,
      resize, transaction.get_signature_size, deserialize_signatures, read_elements]

/-- With a single coinbase input the legacy writer writes nothing for no
signatures and for one empty slot alike. -/
theorem serialize_legacy_signatures_coinbase (t : transaction) (x : txin_gen)
    (hvin : t.vin = [.gen x]) (hsig : t.signatures = [] ∨ t.signatures = [[]]) :
    t.serialize_legacy_signatures = some [] := by
  rcases hsig with h | h
  · simp [transaction.serialize_legacy_signatures, transaction.serialize_signature_loop, hvin,
      h, transaction.get_signature_size]
  · simp [transaction.serialize_legacy_signatures, transaction.serialize_signature_loop, hvin,
      h, transaction.get_signature_size, serialize_signatures]

/-- A coinbase transaction of version 1 in the plain dialect, as written and
as read back, has the bytes of its prefix. -/
theorem transaction_do_serialize_coinbase (E : Externals) (t : transaction) (x : txin_gen)
    (hv : t.version = 1) (hb : t.blob_type = BLOB_TYPE_CRYPTONOTE) (hvin : t.vin = [.gen x])
    (hsig : t.signatures = [] ∨ t.signatures = [[]]) :
    t.do_serialize E = t.totransaction_prefix.do_serialize := by
  have hsec : t.serialize_signature_section E = some [] := by
    unfold transaction.serialize_signature_section
    rw [if_pos ⟨hv, by rw [hb]; decide⟩]
    exact serialize_legacy_signatures_coinbase t x hvin hsig
  unfold transaction.do_serialize
  rw [hsec]
  cases t.totransaction_prefix.do_serialize <;> simp

/-- A coinbase transaction of version 1 in the plain dialect is read back with
one empty signature slot. -/
theorem transaction_roundtrip_coinbase (E : Externals) (R : ReadExternals)
    (t t0 : transaction) (x : txin_gen) (bs rest : Bytes)
    (hv : t.version = 1) (hb : t.blob_type = BLOB_TYPE_CRYPTONOTE) (hvin : t.vin = [.gen x])
    (hsig : t.signatures = []) (hb0 : t0.blob_type = BLOB_TYPE_CRYPTONOTE)
    (hwf : t.totransaction_prefix.wf) (hs : t.do_serialize E = some bs) :
    t0.do_deserialize R (bs ++ rest) =
      some ({ totransaction_prefix :=
                { t.totransaction_prefix with
                  output_unlock_times := t0.output_unlock_times, type := t0.type },
              signatures := [[]], rct_signatures := t0.rct_signatures }, rest) := by
  rw [transaction_do_serialize_coinbase E t x hv hb hvin (Or.inl hsig)] at hs
  have hloki : t.blob_type ≠ BLOB_TYPE_CRYPTONOTE_LOKI := by rw [hb]; decide
  have hpre := transaction_prefix_roundtrip_plain t.totransaction_prefix
    t0.totransaction_prefix bs rest hloki (by rw [hb0, hb]) hwf hs
  have hcn2 : t.blob_type ≠ BLOB_TYPE_CRYPTONOTE2 := by rw [hb]; decide
  simp [transaction.do_deserialize, hpre, hv, hcn2, hvin,
    deserialize_legacy_signatures_coinbase]

/-- Under the merge-mining dialect the `parent_block` field of a block is the
five leading fields of the auxiliary block, the number of transactions and the
full part, and it is written only when there is at least one transaction. -/
theorem serialize_parent_block_eq (E : Externals) (b : block)
    (hmm : b.blob_type = BLOB_TYPE_FORKNOTE2) :
    b.serialize_parent_block E =
      if b.parent_block.number_of_transactions < 1 then none
      else
        ((make_serializable_bytecoin_block b false false).serialize_full_part E).map
          (fun full_part =>
            serialize_varint b.parent_block.major_version ++
              serialize_varint b.parent_block.minor_version ++ serialize_varint b.timestamp ++
              serialize_blob b.parent_block.prev_id ++ serialize_int 4 b.parent_block.nonce ++
              serialize_varint b.parent_block.number_of_transactions ++ full_part) := by
  unfold block.serialize_parent_block
  rw [if_pos hmm]
  unfold serializable_bytecoin_block.do_serialize
  by_cases hn : b.parent_block.number_of_transactions < 1
  · simp [serializable_bytecoin_block.serialize_merkle_root, make_serializable_bytecoin_block,
      hn]
  · cases hfull : (make_serializable_bytecoin_block b false false).serialize_full_part E <;>
      simp [serializable_bytecoin_block.serialize_merkle_root,
        serializable_bytecoin_block.serialize_head, make_serializable_bytecoin_block, hn,
        hfull]

/-- The bytes of a block are those of its header, then those of its
`parent_block` field, then those of the miner transaction and of the
transaction hashes. -/
theorem block_do_serialize_parts (E : Externals) (b : block) (s : Bytes)
    (hs : b.do_serialize E = some s) :
    ∃ header parent_block rest : Bytes,
      b.toblock_header.do_serialize = some header ∧
        b.serialize_parent_block E = some parent_block ∧
        s = header ++ parent_block ++ rest := by
  unfold block.do_serialize at hs
  cases hh : b.toblock_header.do_serialize with
  | none => simp [hh] at hs
  | some header =>
    cases hp : b.serialize_parent_block E with
    | none => simp [hh, hp] at hs
    | some parent_block =>
      cases ht : b.miner_tx.do_serialize E with
      | none => simp [hh, hp, ht] at hs
      | some miner_tx =>
        cases hx : serialize_vector serialize_element_blob b.tx_hashes with
        | none => simp [hh, hp, ht, hx] at hs
        | some tx_hashes =>
          simp [hh, hp, ht, hx] at hs
          exact ⟨header, parent_block, miner_tx ++ tx_hashes, rfl, rfl, by rw [← hs]; simp⟩

/-! ## The Loki checks of the prefix writer -/

/-- C1 (as stated, refuted): a Loki-dialect prefix of version 4 whose outputs
and unlock times agree in number and whose type code is 3 is rejected,
although the claim lists 3 among the accepted type codes. -/
theorem C1_type_code_three_rejected :
    (loki_prefix_sample 4 3).blob_type = BLOB_TYPE_CRYPTONOTE_LOKI ∧
      (loki_prefix_sample 4 3).version ≥ 4 ∧
      (loki_prefix_sample 4 3).vout.length = (loki_prefix_sample 4 3).output_unlock_times.length ∧
      (loki_prefix_sample 4 3).type = 3 ∧
      (loki_prefix_sample 4 3).do_serialize = none := by
  decide

/-- C1 (amended): for every Loki-dialect prefix of version 4 or more whose
outputs and unlock times agree in number, the writer succeeds exactly when the
type code is strictly less than 3, the value of `loki_type_count`: the codes
0, 1 and 2 are accepted, the codes 3 and 4 are rejected. -/
theorem C1_loki_type_code_accepted_iff (p : transaction_prefix)
    (hb : p.blob_type = BLOB_TYPE_CRYPTONOTE_LOKI) (hv : p.version ≥ 4)
    (hlen : p.vout.length = p.output_unlock_times.length) (ht : p.type < 65536) :
    (p.do_serialize.isSome ↔ p.type < 3) ∧
      (p.type = 3 ∨ p.type = 4 → p.do_serialize = none) ∧
      (p.type = 0 ∨ p.type = 1 ∨ p.type = 2 → p.do_serialize.isSome) := by
  obtain ⟨front, extra, heq⟩ := transaction_prefix_do_serialize_eq p
  have hmod : p.type % 65536 = p.type := Nat.mod_eq_of_lt ht
  have hiff : p.do_serialize.isSome ↔ p.type < 3 := by
    rw [heq]
    simp only [hlen, ne_eq, not_true_eq_false, and_false, if_false,
      transaction_prefix.serialize_loki_type, hb, loki_version_4_tx_types, hv, and_self,
      if_true, hmod, loki_type_count]
    by_cases h3 : p.type ≥ 3
    · simp [h3]
    · simp [h3]
      omega
  refine ⟨hiff, ?_, ?_⟩
  · intro h
    have : ¬ p.type < 3 := by omega
    rw [← hiff] at this
    simpa using this
  · intro h
    exact hiff.mpr (by omega)

/-- C1 (amended), applied to a prefix of version 4 with type code 2. -/
theorem C1_loki_type_code_accepted_iff_witness :
    ((loki_prefix_sample 4 2).do_serialize.isSome ↔ (loki_prefix_sample 4 2).type < 3) ∧
      ((loki_prefix_sample 4 2).type = 3 ∨ (loki_prefix_sample 4 2).type = 4 →
        (loki_prefix_sample 4 2).do_serialize = none) ∧
      ((loki_prefix_sample 4 2).type = 0 ∨ (loki_prefix_sample 4 2).type = 1 ∨
        (loki_prefix_sample 4 2).type = 2 → (loki_prefix_sample 4 2).do_serialize.isSome) :=
  C1_loki_type_code_accepted_iff (loki_prefix_sample 4 2) (by decide) (by decide) (by decide)
    (by decide)

/-- C2: for every Loki-dialect prefix of version 3 or more, the writer fails
whenever the number of outputs differs from the number of output unlock times,
whatever the other fields hold. -/
theorem C2_output_count_mismatch_fails (p : transaction_prefix)
    (hb : p.blob_type = BLOB_TYPE_CRYPTONOTE_LOKI) (hv : p.version ≥ 3)
    (hlen : p.vout.length ≠ p.output_unlock_times.length) :
    p.do_serialize = none := by
  obtain ⟨front, extra, heq⟩ := transaction_prefix_do_serialize_eq p
  rw [heq, if_pos ⟨hb, hv, hlen⟩]

/-- C2, applied to a prefix of version 3 with one output and no unlock time. -/
theorem C2_output_count_mismatch_fails_witness : sample_loki_mismatch.do_serialize = none :=
  C2_output_count_mismatch_fails sample_loki_mismatch (by decide) (by decide) (by decide)

/-! ## The legacy signature section -/

/-- C5: `get_signature_size` is the number of key offsets of a key input and 0
for a coinbase, script or script-hash input, whatever the other fields hold;
for three key offsets it is 3. -/
theorem C5_get_signature_size :
    (∀ x : txin_to_key, transaction.get_signature_size (.to_key x) = x.key_offsets.length) ∧
      (∀ (amount a b c : Nat) (k : key_image),
        transaction.get_signature_size (.to_key ⟨amount, [a, b, c], k⟩) = 3) ∧
      (∀ x : txin_gen, transaction.get_signature_size (.gen x) = 0) ∧
      (∀ x : txin_to_script, transaction.get_signature_size (.to_script x) = 0) ∧
      (∀ x : txin_to_scripthash, transaction.get_signature_size (.to_scripthash x) = 0) :=
  ⟨fun _ => rfl, fun _ _ _ _ _ => rfl, fun _ => rfl, fun _ => rfl, fun _ => rfl⟩

/-- C3: for a transaction of version 1 in a dialect that does not force
delegated signatures, with a prefix that serializes and a non-empty legacy
signature list, the signature section (and with it the transaction) is written
successfully if and only if there are as many signature slots as inputs and
every slot has the size its input expects; a list of another length fails. -/
theorem C3_legacy_signatures_accepted_iff (E : Externals) (t : transaction)
    (hv : t.version = 1) (hb : t.blob_type ≠ BLOB_TYPE_CRYPTONOTE2)
    (hp : t.totransaction_prefix.do_serialize.isSome) (hs : t.signatures ≠ []) :
    ((t.serialize_signature_section E).isSome ↔
        t.signatures.length = t.vin.length ∧
          ∀ (i : Nat) (h1 : i < t.signatures.length) (h2 : i < t.vin.length),
            t.signatures[i].length = transaction.get_signature_size t.vin[i]) ∧
      ((t.do_serialize E).isSome ↔ (t.serialize_signature_section E).isSome) ∧
      (t.signatures.length ≠ t.vin.length → t.do_serialize E = none) := by
  obtain ⟨pre, hpre⟩ := Option.isSome_iff_exists.mp hp
  have hdo := transaction_do_serialize_of_prefix E t pre hpre
  have hempty : t.signatures.isEmpty = false := by
    cases hsig : t.signatures with
    | nil => exact absurd hsig hs
    | cons a l => rfl
  have hsec : t.serialize_signature_section E =
      if t.vin.length ≠ t.signatures.length then none
      else transaction.serialize_signature_loop t.signatures false 0 t.vin := by
    simp [transaction.serialize_signature_section, hv, hb,
      transaction.serialize_legacy_signatures, hempty]
  have hiff : (t.serialize_signature_section E).isSome ↔
      t.signatures.length = t.vin.length ∧
        ∀ (i : Nat) (h1 : i < t.signatures.length) (h2 : i < t.vin.length),
          t.signatures[i].length = transaction.get_signature_size t.vin[i] := by
    rw [hsec]
    by_cases hlen : t.vin.length = t.signatures.length
    · rw [if_neg (by simpa using hlen), signature_loop_checked]
      constructor
      · intro h
        refine ⟨hlen.symm, fun i h1 h2 => ?_⟩
        have := h i h2
        simpa [List.getElem?_eq_getElem h1] using this
      · intro h j hj
        have := h.2 j (by omega) hj
        simpa [List.getElem?_eq_getElem (show j < t.signatures.length by omega)] using this
    · rw [if_pos hlen]
      constructor
      · intro h; simp at h
      · intro h; exact absurd h.1.symm hlen
  refine ⟨hiff, ?_, ?_⟩
  · rw [hdo]; simp
  · intro hne
    have : ¬ (t.serialize_signature_section E).isSome := fun h => hne (hiff.mp h).1
    rw [hdo]
    cases hsig : t.serialize_signature_section E with
    | none => rfl
    | some x => rw [hsig] at this; simp at this

/-- C3, applied to a transaction with one key input that refers to two
outputs, once with one slot of two signatures and once with two slots. -/
theorem C3_legacy_signatures_accepted_iff_witness :
    (sample_tx [sample_key_input] [[List.replicate 64 1, List.replicate 64 2]]).do_serialize
        sample_externals ≠ none ∧
      (sample_tx [sample_key_input]
          [[List.replicate 64 1, List.replicate 64 2], []]).do_serialize sample_externals =
        none := by
  constructor
  · have h := C3_legacy_signatures_accepted_iff sample_externals
      (sample_tx [sample_key_input] [[List.replicate 64 1, List.replicate 64 2]])
      (by decide) (by decide) (by decide) (by decide)
    have hsec := h.1.mpr ⟨by decide, by decide⟩
    have hdo := h.2.1.mpr hsec
    intro hnone
    rw [hnone] at hdo
    simp at hdo
  · exact (C3_legacy_signatures_accepted_iff sample_externals
      (sample_tx [sample_key_input] [[List.replicate 64 1, List.replicate 64 2], []])
      (by decide) (by decide) (by decide) (by decide)).2.2 (by decide)

/-- C4: for a transaction of version 1 in a dialect that does not force
delegated signatures, with a prefix that serializes to `pre` and an empty
legacy signature list, the transaction is written successfully if and only if
every input expects 0 signatures, that is no key input has a key offset; the
bytes written are then those of the prefix alone. -/
theorem C4_no_signatures_accepted_iff (E : Externals) (t : transaction) (pre : Bytes)
    (hv : t.version = 1) (hb : t.blob_type ≠ BLOB_TYPE_CRYPTONOTE2)
    (hp : t.totransaction_prefix.do_serialize = some pre) (hs : t.signatures = []) :
    ((t.serialize_signature_section E).isSome ↔
        ∀ x ∈ t.vin, transaction.get_signature_size x = 0) ∧
      ((t.do_serialize E).isSome ↔ ∀ x ∈ t.vin, transaction.get_signature_size x = 0) ∧
      ((∀ x ∈ t.vin, transaction.get_signature_size x = 0) ↔
        ∀ k : txin_to_key, txin_v.to_key k ∈ t.vin → k.key_offsets = []) ∧
      ((∀ x ∈ t.vin, transaction.get_signature_size x = 0) →
        t.serialize_signature_section E = some [] ∧ t.do_serialize E = some pre) := by
  have hdo := transaction_do_serialize_of_prefix E t pre hp
  have hsec : t.serialize_signature_section E =
      if ∀ x ∈ t.vin, transaction.get_signature_size x = 0 then some [] else none := by
    simp [transaction.serialize_signature_section, hv, hb,
      transaction.serialize_legacy_signatures, hs, signature_loop_not_expected]
  refine ⟨?_, ?_, ?_, ?_⟩
  · rw [hsec]; split <;> simp_all
  · rw [hdo, hsec]; split <;> simp_all
  · constructor
    · intro h k hk
      have := h _ hk
      simpa [transaction.get_signature_size] using this
    · intro h x hx
      cases x with
      | gen y => rfl
      | to_script y => rfl
      | to_scripthash y => rfl
      | to_key y => simp [transaction.get_signature_size, h y hx]
  · intro h
    rw [hdo, hsec, if_pos h]
    simp

/-- C4, applied to a coinbase transaction without signatures. -/
theorem C4_no_signatures_accepted_iff_witness :
    (sample_tx [.gen ⟨300⟩] []).do_serialize sample_externals =
      some [1, 0, 1, 0xff, 172, 2, 1, 7, 2, 9, 9, 9, 9, 9, 9, 9, 9, 9, 9, 9, 9, 9, 9, 9, 9, 9, 9,
        9, 9, 9, 9, 9, 9, 9, 9, 9, 9, 9, 9, 9, 9, 2, 3, 0] :=
  ((C4_no_signatures_accepted_iff sample_externals (sample_tx [.gen ⟨300⟩] []) _
    (by decide) (by decide) (by decide) (by decide)).2.2.2 (by decide)).2

/-! ## The auxiliary block -/

/-- C6: an auxiliary block whose `number_of_transactions` is 0 is never
written, in hashing mode or not, header-only or full, whatever the branches,
the miner transaction and the other fields hold. -/
theorem C6_empty_transaction_set_fails (E : Externals) (s : serializable_bytecoin_block)
    (hn : s.b.number_of_transactions = 0) : s.do_serialize E = none := by
  have h := serializable_bytecoin_block_isSome E s
  cases hdo : s.do_serialize E with
  | none => rfl
  | some bs =>
    rw [hdo] at h
    have := (h.mp rfl).2.1
    omega

/-- C6, applied to an auxiliary block without transactions, in hashing and
header-only mode. -/
theorem C6_empty_transaction_set_fails_witness :
    (sample_aux_block true true 0).do_serialize sample_externals_depth = none :=
  C6_empty_transaction_set_fails sample_externals_depth (sample_aux_block true true 0)
    (by decide)

/-- C7 (as stated, refuted): in full and hashing mode, an auxiliary block with
one transaction whose branch has the required length, whose miner transaction
is written, and whose tag lookup returns the length of the chain branch is
still rejected when the hash of the miner transaction cannot be computed. -/
theorem C7_hash_failure_rejected :
    (sample_aux_block true false 1).header_only = false ∧
      (sample_aux_block true false 1).b.number_of_transactions ≥ 1 ∧
      (sample_aux_block true false 1).b.miner_tx_branch.length =
        sample_externals_no_hash.tree_depth
          (sample_aux_block true false 1).b.number_of_transactions ∧
      ((sample_aux_block true false 1).b.miner_tx.do_serialize sample_externals_no_hash).isSome ∧
      sample_externals_no_hash.get_mm_tag_from_extra
          (sample_aux_block true false 1).b.miner_tx.extra =
        some (sample_aux_block true false 1).b.blockchain_branch.length ∧
      (sample_aux_block true false 1).do_serialize sample_externals_no_hash = none := by
  decide

/-- C7 (amended): in full mode with at least one transaction, the writer fails
whenever the miner branch has not the length `tree_depth` requires; when that
check passes and the miner transaction is written, it fails whenever the tag
lookup fails or returns a depth other than the length of the chain branch; and
it succeeds when all three conditions hold, provided that in hashing mode the
hash of a miner transaction of version below 2 can be computed. -/
theorem C7_full_mode_checks (E : Externals) (s : serializable_bytecoin_block)
    (hfull : s.header_only = false) (hn : s.b.number_of_transactions ≥ 1) :
    (s.b.miner_tx_branch.length ≠ E.tree_depth s.b.number_of_transactions →
        s.do_serialize E = none) ∧
      (s.b.miner_tx_branch.length = E.tree_depth s.b.number_of_transactions →
        (s.b.miner_tx.do_serialize E).isSome →
        (E.get_mm_tag_from_extra s.b.miner_tx.extra = none ∨
          ∃ depth, E.get_mm_tag_from_extra s.b.miner_tx.extra = some depth ∧
            s.b.blockchain_branch.length ≠ depth) →
        s.do_serialize E = none) ∧
      ((s.hashing_serialization = true → s.b.miner_tx.version < 2 →
          (E.get_transaction_hash s.b.miner_tx).isSome) →
        s.b.miner_tx_branch.length = E.tree_depth s.b.number_of_transactions →
        (s.b.miner_tx.do_serialize E).isSome →
        E.get_mm_tag_from_extra s.b.miner_tx.extra = some s.b.blockchain_branch.length →
        (s.do_serialize E).isSome) := by
  have hdo := serializable_bytecoin_block_isSome E s
  have hpart := serialize_full_part_isSome E s hfull
  have hroot := serialize_merkle_root_isSome E s
  have hnone : ¬ (s.serialize_full_part E).isSome → s.do_serialize E = none := by
    intro h
    cases hres : s.do_serialize E with
    | none => rfl
    | some bs =>
      rw [hres] at hdo
      exact absurd (hdo.mp rfl).2.2 h
  refine ⟨?_, ?_, ?_⟩
  · intro hlen
    exact hnone (fun h => hlen (hpart.mp h).1)
  · intro _ _ htag
    apply hnone
    intro h
    have hsome := (hpart.mp h).2.2
    rcases htag with h0 | ⟨depth, hd, hne⟩
    · rw [h0] at hsome
      simp at hsome
    · rw [hd] at hsome
      exact hne (Option.some.inj hsome).symm
  · intro hhash hlen htx htag
    exact hdo.mpr ⟨hroot.mpr hhash, hn, hpart.mpr ⟨hlen, htx, htag⟩⟩

/-- C7 (amended), applied to a full, non-hashing auxiliary block with one
transaction and empty branches. -/
theorem C7_full_mode_checks_witness :
    ((sample_aux_block false false 1).do_serialize sample_externals_depth).isSome :=
  (C7_full_mode_checks sample_externals_depth (sample_aux_block false false 1)
    (by decide) (by decide)).2.2 (by decide) (by decide) (by decide) (by decide)

/-- C8: in hashing mode the leaf handed to `tree_hash_from_branch` is the
transaction hash when the miner transaction has a version below 2, and the
writer fails when that hash cannot be computed; from version 2 on it is the
hash of the 96-byte blob made of the 32-byte prefix hash followed by the 32
bytes bc36789e..64bcc98a and 32 zero bytes. -/
theorem C8_miner_tx_leaf_hash (E : Externals) (s : serializable_bytecoin_block) :
    (s.hashing_serialization = true →
        s.serialize_merkle_root E =
          (s.miner_tx_hash E).map (fun leaf =>
            serialize_blob
              (E.tree_hash_from_branch s.b.miner_tx_branch s.b.miner_tx_branch.length leaf))) ∧
      (s.b.miner_tx.version < 2 → s.miner_tx_hash E = E.get_transaction_hash s.b.miner_tx) ∧
      (s.hashing_serialization = true → s.b.miner_tx.version < 2 →
        E.get_transaction_hash s.b.miner_tx = none → s.do_serialize E = none) ∧
      (2 ≤ s.b.miner_tx.version →
        (E.get_transaction_prefix_hash s.b.miner_tx.totransaction_prefix).length = 32 →
        s.miner_tx_hash E =
            some (E.get_blob_hash
              (E.get_transaction_prefix_hash s.b.miner_tx.totransaction_prefix ++
                ([0xbc, 0x36, 0x78, 0x9e, 0x7a, 0x1e, 0x28, 0x14, 0x36, 0x46, 0x42, 0x29, 0x82,
                  0x8f, 0x81, 0x7d, 0x66, 0x12, 0xf7, 0xb4, 0x77, 0xd6, 0x65, 0x91, 0xff, 0x96,
                  0xa9, 0xe0, 0x64, 0xbc, 0xc9, 0x8a] ++ List.replicate 32 0))) ∧
          (E.get_transaction_prefix_hash s.b.miner_tx.totransaction_prefix ++
            ([0xbc, 0x36, 0x78, 0x9e, 0x7a, 0x1e, 0x28, 0x14, 0x36, 0x46, 0x42, 0x29, 0x82,
              0x8f, 0x81, 0x7d, 0x66, 0x12, 0xf7, 0xb4, 0x77, 0xd6, 0x65, 0x91, 0xff, 0x96,
              0xa9, 0xe0, 0x64, 0xbc, 0xc9, 0x8a] ++ List.replicate 32 0)).length = 96) := by
  refine ⟨?_, ?_, ?_, ?_⟩
  · intro hh
    unfold serializable_bytecoin_block.serialize_merkle_root
    cases s.miner_tx_hash E <;> simp [hh]
  · intro hv
    simp [serializable_bytecoin_block.miner_tx_hash, hv]
  · intro hh hv hnone
    have hroot := serialize_merkle_root_isSome E s
    have hdo := serializable_bytecoin_block_isSome E s
    cases hres : s.do_serialize E with
    | none => rfl
    | some bs =>
      rw [hres] at hdo
      have := hroot.mp (hdo.mp rfl).1 hh hv
      rw [hnone] at this
      simp at this
  · intro hv hlen
    have hnot : ¬ s.b.miner_tx.version < 2 := by omega
    have hdata : miner_tx_hash_data.drop 32 =
        [0xbc, 0x36, 0x78, 0x9e, 0x7a, 0x1e, 0x28, 0x14, 0x36, 0x46, 0x42, 0x29, 0x82,
          0x8f, 0x81, 0x7d, 0x66, 0x12, 0xf7, 0xb4, 0x77, 0xd6, 0x65, 0x91, 0xff, 0x96,
          0xa9, 0xe0, 0x64, 0xbc, 0xc9, 0x8a] ++ List.replicate 32 0 := by decide
    constructor
    · unfold serializable_bytecoin_block.miner_tx_hash
      rw [if_neg hnot, miner_tx_hash_blob_eq _ hlen, hdata]
    · rw [List.length_append, hlen]
      rfl

/-- C8, applied to an auxiliary block whose miner transaction has version 1
and whose transaction hash cannot be computed, and to one whose miner
transaction has version 2 and the prefix hash 02..02. -/
theorem C8_miner_tx_leaf_hash_witness :
    (sample_aux_block true false 1).do_serialize sample_externals_no_hash = none ∧
      sample_aux_block_v2.miner_tx_hash sample_externals_depth =
        some (sample_externals_depth.get_blob_hash
          (List.replicate 32 2 ++
            ([0xbc, 0x36, 0x78, 0x9e, 0x7a, 0x1e, 0x28, 0x14, 0x36, 0x46, 0x42, 0x29, 0x82,
              0x8f, 0x81, 0x7d, 0x66, 0x12, 0xf7, 0xb4, 0x77, 0xd6, 0x65, 0x91, 0xff, 0x96,
              0xa9, 0xe0, 0x64, 0xbc, 0xc9, 0x8a] ++ List.replicate 32 0))) :=
  ⟨(C8_miner_tx_leaf_hash sample_externals_no_hash (sample_aux_block true false 1)).2.2.1
      (by decide) (by decide) (by decide),
    ((C8_miner_tx_leaf_hash sample_externals_depth sample_aux_block_v2).2.2.2
      (by decide) (by decide)).1⟩

/-! ## Blocks -/

/-- C9 (as stated, refuted): two merge-mining blocks that differ in `prev_id`
and in `nonce` have the same auxiliary section, whose bytes hold the
timestamp of the owning block and the `prev_id` (05..05) and the `nonce` (77)
of the parent block, not those of the owning block (01..01 and 11). -/
theorem C9_aux_section_ignores_block_prev_id_and_nonce :
    (sample_block (List.replicate 32 1) 11).blob_type = BLOB_TYPE_FORKNOTE2 ∧
      (sample_block (List.replicate 32 1) 11).prev_id ≠
        (sample_block (List.replicate 32 2) 12).prev_id ∧
      (sample_block (List.replicate 32 1) 11).nonce ≠
        (sample_block (List.replicate 32 2) 12).nonce ∧
      ((sample_block (List.replicate 32 1) 11).serialize_parent_block
        sample_externals_depth).isSome ∧
      (sample_block (List.replicate 32 1) 11).serialize_parent_block sample_externals_depth =
        (sample_block (List.replicate 32 2) 12).serialize_parent_block sample_externals_depth ∧
      (make_serializable_bytecoin_block (sample_block (List.replicate 32 1) 11) false
          false).serialize_head =
        serialize_varint 1 ++ serialize_varint 0 ++ serialize_varint 1000 ++
          List.replicate 32 5 ++ serialize_int 4 77 ∧
      (sample_block (List.replicate 32 1) 11).serialize_parent_block sample_externals_depth =
        some ([1, 0, 232, 7] ++ List.replicate 32 5 ++ [77, 0, 0, 0] ++ [1] ++
          ([1, 0, 1, 255, 172, 2, 1, 7, 2] ++ List.replicate 32 9 ++ [2, 3, 0])) ∧
      (sample_block (List.replicate 32 1) 11).do_serialize sample_externals_depth =
        some (([2, 1] ++ List.replicate 32 1) ++
          ([1, 0, 232, 7] ++ List.replicate 32 5 ++ [77, 0, 0, 0] ++ [1] ++
            ([1, 0, 1, 255, 172, 2, 1, 7, 2] ++ List.replicate 32 9 ++ [2, 3, 0])) ++
          ([1, 0, 1, 255, 172, 2, 1, 7, 2] ++ List.replicate 32 9 ++ [2, 3, 0]) ++ [0]) :=
  ⟨by decide, by decide, by decide, by decide, by decide, by decide, by decide, rfl⟩

/-- C9 (amended): of the owning block only the timestamp is aliased.  Under
the merge-mining dialect the auxiliary section encoded inside the block is
written exactly when the parent block has a transaction and its full part is
written; its bytes are then the parent block's versions, the owning block's
timestamp, the parent block's own `prev_id` and `nonce`, the number of
transactions and the full part, which depends on the parent block alone; they
follow the header in the bytes of the block, and they do not change when the
owning block's `prev_id` or `nonce` change. -/
theorem C9_aux_section_aliases_timestamp_only (E : Externals) (b : block)
    (hashing_serialization header_only : Bool) :
    (make_serializable_bytecoin_block b hashing_serialization header_only).serialize_head =
        serialize_varint b.parent_block.major_version ++
          serialize_varint b.parent_block.minor_version ++ serialize_varint b.timestamp ++
          serialize_blob b.parent_block.prev_id ++ serialize_int 4 b.parent_block.nonce ∧
      (∀ (prev_id : hash) (nonce : Nat),
        make_serializable_bytecoin_block { b with prev_id := prev_id, nonce := nonce }
            hashing_serialization header_only =
          make_serializable_bytecoin_block b hashing_serialization header_only) ∧
      (∀ (prev_id : hash) (nonce : Nat),
        block.serialize_parent_block E { b with prev_id := prev_id, nonce := nonce } =
          b.serialize_parent_block E) ∧
      (b.blob_type = BLOB_TYPE_FORKNOTE2 →
        b.serialize_parent_block E =
          if b.parent_block.number_of_transactions < 1 then none
          else
            ((make_serializable_bytecoin_block b false false).serialize_full_part E).map
              (fun full_part =>
                serialize_varint b.parent_block.major_version ++
                  serialize_varint b.parent_block.minor_version ++
                  serialize_varint b.timestamp ++ serialize_blob b.parent_block.prev_id ++
                  serialize_int 4 b.parent_block.nonce ++
                  serialize_varint b.parent_block.number_of_transactions ++ full_part)) ∧
      (b.blob_type = BLOB_TYPE_FORKNOTE2 →
        ((b.serialize_parent_block E).isSome ↔
          1 ≤ b.parent_block.number_of_transactions ∧
            ((make_serializable_bytecoin_block b false false).serialize_full_part E).isSome)) ∧
      (∀ b2 : block, b2.parent_block = b.parent_block →
        (make_serializable_bytecoin_block b2 false false).serialize_full_part E =
          (make_serializable_bytecoin_block b false false).serialize_full_part E) ∧
      (∀ s : Bytes, b.do_serialize E = some s →
        ∃ header parent_block rest : Bytes,
          b.toblock_header.do_serialize = some header ∧
            b.serialize_parent_block E = some parent_block ∧
            s = header ++ parent_block ++ rest) := by
  refine ⟨rfl, fun _ _ => rfl, fun _ _ => rfl, serialize_parent_block_eq E b, ?_, ?_,
    block_do_serialize_parts E b⟩
  · intro hmm
    rw [serialize_parent_block_eq E b hmm]
    by_cases hn : b.parent_block.number_of_transactions < 1
    · have hn2 : ¬ 1 ≤ b.parent_block.number_of_transactions := by omega
      simp [hn, hn2]
    · have hn2 : 1 ≤ b.parent_block.number_of_transactions := by omega
      simp [hn, hn2]
  · intro b2 h2
    simp [serializable_bytecoin_block.serialize_full_part, make_serializable_bytecoin_block, h2]

/-- C9 (amended), applied to a merge-mining block with the timestamp 1000 and
the nonce 11 whose parent block has the `prev_id` 05..05 and the nonce 77. -/
theorem C9_aux_section_aliases_timestamp_only_witness :
    (sample_block (List.replicate 32 1) 11).serialize_parent_block sample_externals_depth =
      some ([1, 0, 232, 7] ++ List.replicate 32 5 ++ [77, 0, 0, 0] ++ [1] ++
        ([1, 0, 1, 255, 172, 2, 1, 7, 2] ++ List.replicate 32 9 ++ [2, 3, 0])) :=
  ((C9_aux_section_aliases_timestamp_only sample_externals_depth
    (sample_block (List.replicate 32 1) 11) false false).2.2.2.1 (by decide)).trans
    (by decide)

/-- C10: a block header is written as the varint of `major_version`, the
varint of `minor_version`, the varint of `timestamp` unless the dialect is the
merge-mining one, `prev_id`, and the four bytes of `nonce` unless the dialect
is the merge-mining one, in that order; under the merge-mining dialect the
bytes do not depend on `timestamp` or `nonce`. -/
theorem C10_block_header_layout (h : block_header) :
    (h.blob_type ≠ BLOB_TYPE_FORKNOTE2 →
        h.do_serialize =
          some (serialize_varint h.major_version ++ serialize_varint h.minor_version ++
            serialize_varint h.timestamp ++ serialize_blob h.prev_id ++
            serialize_int 4 h.nonce)) ∧
      (h.blob_type = BLOB_TYPE_FORKNOTE2 →
        h.do_serialize =
          some (serialize_varint h.major_version ++ serialize_varint h.minor_version ++
            serialize_blob h.prev_id)) ∧
      (h.blob_type = BLOB_TYPE_FORKNOTE2 →
        ∀ (timestamp nonce : Nat),
          block_header.do_serialize { h with timestamp := timestamp, nonce := nonce } =
            h.do_serialize) := by
  refine ⟨?_, ?_, ?_⟩
  · intro hb
    simp [block_header.do_serialize, hb]
  · intro hb
    simp [block_header.do_serialize, hb]
  · intro hb timestamp nonce
    simp [block_header.do_serialize, hb]

/-- C10, applied to a plain header and to a merge-mining header. -/
theorem C10_block_header_layout_witness :
    (sample_header BLOB_TYPE_CRYPTONOTE 5 6).do_serialize =
        some (serialize_varint 2 ++ serialize_varint 1 ++ serialize_varint 5 ++
          serialize_blob (List.replicate 32 4) ++ serialize_int 4 6) ∧
      (sample_header BLOB_TYPE_FORKNOTE2 5 6).do_serialize =
        some (serialize_varint 2 ++ serialize_varint 1 ++ serialize_blob (List.replicate 32 4)) :=
  ⟨(C10_block_header_layout (sample_header BLOB_TYPE_CRYPTONOTE 5 6)).1 (by decide),
    (C10_block_header_layout (sample_header BLOB_TYPE_FORKNOTE2 5 6)).2.1 (by decide)⟩

/-! ## Header-only mode, other dialects, and the delegated signature section -/

/-- C18: in header-only, non-hashing mode the auxiliary block is written if
and only if it has at least one transaction, and the bytes are the two
versions, the timestamp, `prev_id`, `nonce` and the number of transactions:
they do not depend on the branches or on the miner transaction, and no
external check is consulted. -/
theorem C18_header_only_layout (E : Externals) (s : serializable_bytecoin_block)
    (hhash : s.hashing_serialization = false) (honly : s.header_only = true) :
    s.do_serialize E =
        (if 1 ≤ s.b.number_of_transactions then
          some (serialize_varint s.b.major_version ++ serialize_varint s.b.minor_version ++
            serialize_varint s.timestamp ++ serialize_blob s.b.prev_id ++
            serialize_int 4 s.b.nonce ++ serialize_varint s.b.number_of_transactions)
        else none) ∧
      ((s.do_serialize E).isSome ↔ 1 ≤ s.b.number_of_transactions) ∧
      (s.b.number_of_transactions = 1 → (s.do_serialize E).isSome) ∧
      (∀ (E2 : Externals) (miner_tx_branch blockchain_branch : List hash)
          (miner_tx : transaction),
        serializable_bytecoin_block.do_serialize E2
            { s with b := { s.b with miner_tx_branch := miner_tx_branch, miner_tx := miner_tx,
                                     blockchain_branch := blockchain_branch } } =
          s.do_serialize E) := by
  have hmain : ∀ (E1 : Externals) (s1 : serializable_bytecoin_block),
      s1.hashing_serialization = false → s1.header_only = true →
      s1.do_serialize E1 =
        (if 1 ≤ s1.b.number_of_transactions then
          some (serialize_varint s1.b.major_version ++ serialize_varint s1.b.minor_version ++
            serialize_varint s1.timestamp ++ serialize_blob s1.b.prev_id ++
            serialize_int 4 s1.b.nonce ++ serialize_varint s1.b.number_of_transactions)
        else none) := by
    intro E1 s1 h1 h2
    by_cases hn : 1 ≤ s1.b.number_of_transactions
    · have hlt : ¬ s1.b.number_of_transactions < 1 := by omega
      simp [serializable_bytecoin_block.do_serialize,
        serializable_bytecoin_block.serialize_merkle_root,
        serializable_bytecoin_block.serialize_full_part,
        serializable_bytecoin_block.serialize_head, h1, h2, hn, hlt]
    · have hlt : s1.b.number_of_transactions < 1 := by omega
      simp [serializable_bytecoin_block.do_serialize,
        serializable_bytecoin_block.serialize_merkle_root, h1, hn, hlt]
  refine ⟨hmain E s hhash honly, ?_, ?_, ?_⟩
  · rw [hmain E s hhash honly]
    split <;> simp_all
  · intro h1
    rw [hmain E s hhash honly, if_pos (by omega)]
    rfl
  · intro E2 miner_tx_branch blockchain_branch miner_tx
    rw [hmain E s hhash honly]
    exact hmain E2 _ hhash honly

/-- C18, applied to a header-only, non-hashing auxiliary block with one
transaction. -/
theorem C18_header_only_layout_witness :
    (sample_aux_block false true 1).do_serialize sample_externals_no_hash =
      some (serialize_varint 1 ++ serialize_varint 0 ++ serialize_varint 1000 ++
        serialize_blob (List.replicate 32 5) ++ serialize_int 4 77 ++ serialize_varint 1) :=
  (C18_header_only_layout sample_externals_no_hash (sample_aux_block false true 1)
    (by decide) (by decide)).1

/-- C19: outside the Loki dialect, at every version, the prefix writer neither
writes nor checks the Loki fields: it always succeeds, its bytes are the
version, the unlock time, the inputs, the outputs and `extra`, and replacing
`output_unlock_times` and the type code by any other values gives the same
result. -/
theorem C19_other_dialects_ignore_loki_fields (p : transaction_prefix)
    (hb : p.blob_type ≠ BLOB_TYPE_CRYPTONOTE_LOKI) :
    p.do_serialize.isSome ∧
      (∀ (output_unlock_times : List Nat) (type : Nat),
        transaction_prefix.do_serialize
            { p with output_unlock_times := output_unlock_times, type := type } =
          p.do_serialize) ∧
      (∃ vin vout extra : Bytes,
        serialize_vector txin_v.do_serialize p.vin = some vin ∧
          serialize_vector tx_out.do_serialize p.vout = some vout ∧
          serialize_vector serialize_element_byte p.extra = some extra ∧
          p.do_serialize =
            some (serialize_varint p.version ++ serialize_varint p.unlock_time ++ vin ++
              vout ++ extra)) := by
  obtain ⟨vin, vout, extra, hi, ho, he, hp⟩ := transaction_prefix_do_serialize_plain p hb
  refine ⟨by rw [hp]; rfl, ?_, ⟨vin, vout, extra, hi, ho, he, hp⟩⟩
  intro output_unlock_times type
  obtain ⟨vin2, vout2, extra2, hi2, ho2, he2, hp2⟩ :=
    transaction_prefix_do_serialize_plain
      { p with output_unlock_times := output_unlock_times, type := type } hb
  simp only [hi, ho, he, Option.some.injEq] at hi2 ho2 he2
  rw [hp, hp2, hi2, ho2, he2]

/-- C19, applied to a plain-dialect prefix of version 4 with one output, two
unlock times and the type code 9. -/
theorem C19_other_dialects_ignore_loki_fields_witness :
    ( prefix_sample BLOB_TYPE_CRYPTONOTE 4).do_serialize.isSome :=
  (C19_other_dialects_ignore_loki_fields ( prefix_sample BLOB_TYPE_CRYPTONOTE 4)
    (by decide)).1

/-- C14: in the Loki dialect the optional fields of the prefix depend on the
version alone: the unlock times stand between the version and the unlock time
exactly when the version exceeds 2, the flag byte follows them exactly when the
version is 3, and the type code follows `extra` exactly when the version is 4
or more; the flag byte and the type code never occur together. -/
theorem C14_loki_optional_fields (p : transaction_prefix)
    (hb : p.blob_type = BLOB_TYPE_CRYPTONOTE_LOKI) :
    (∃ times vin vout extra : Bytes,
      serialize_vector serialize_element_varint p.output_unlock_times = some times ∧
        serialize_vector txin_v.do_serialize p.vin = some vin ∧
        serialize_vector tx_out.do_serialize p.vout = some vout ∧
        serialize_vector serialize_element_byte p.extra = some extra ∧
        p.do_serialize =
          if (3 ≤ p.version ∧ p.vout.length ≠ p.output_unlock_times.length) ∨
              (4 ≤ p.version ∧ 3 ≤ p.type % 65536) then none
          else
            some (serialize_varint p.version ++
              (if p.version > 2 then times else []) ++
              (if p.version = 3 then [p.type % 256] else []) ++
              serialize_varint p.unlock_time ++ vin ++ vout ++ extra ++
              (if p.version ≥ 4 then serialize_varint p.type else []))) ∧
      ¬ (p.version = 3 ∧ p.version ≥ 4) := by
  refine ⟨?_, by omega⟩
  obtain ⟨t, ht⟩ :=
    serialize_vector_some _ serialize_element_varint_some p.output_unlock_times
  obtain ⟨i, hi⟩ := serialize_vector_some _ txin_v_some p.vin
  obtain ⟨o, ho⟩ := serialize_vector_some _ tx_out_some p.vout
  obtain ⟨e, he⟩ := serialize_vector_some _ serialize_element_byte_some p.extra
  refine ⟨t, i, o, e, ht, hi, ho, he, ?_⟩
  by_cases hlen : p.vout.length = p.output_unlock_times.length
  · by_cases hty : 3 ≤ p.type % 65536
    · rcases Nat.lt_or_ge p.version 3 with h2 | h3
      · have h2' : ¬ p.version > 2 := by omega
        have h3' : ¬ p.version = 3 := by omega
        have h4' : ¬ p.version ≥ 4 := by omega
        have h5' : ¬ 3 ≤ p.version := by omega
        simp [ transaction_prefix.do_serialize, transaction_prefix.serialize_loki_head,
          transaction_prefix.serialize_loki_type, transaction_prefix.is_deregister_byte, hb,
          ht, hi, ho, he, hlen, hty, h2', h3', h4', h5', loki_version_2,
          loki_version_3_per_output_unlock_times, loki_version_4_tx_types, loki_type_count]
      · rcases Nat.eq_or_lt_of_le h3 with h3e | h4
        · have h3' : p.version = 3 := h3e.symm
          simp [ transaction_prefix.do_serialize, transaction_prefix.serialize_loki_head,
            transaction_prefix.serialize_loki_type, transaction_prefix.is_deregister_byte, hb,
            ht, hi, ho, he, hlen, hty, h3', loki_version_2,
            loki_version_3_per_output_unlock_times, loki_version_4_tx_types, loki_type_count]
        · have h2' : p.version > 2 := by omega
          have h3' : ¬ p.version = 3 := by omega
          have h4' : p.version ≥ 4 := h4
          have h5' : 3 ≤ p.version := by omega
          simp [ transaction_prefix.do_serialize, transaction_prefix.serialize_loki_head,
            transaction_prefix.serialize_loki_type, transaction_prefix.is_deregister_byte, hb,
            ht, hi, ho, he, hlen, hty, h2', h3', h4', h5', loki_version_2,
            loki_version_3_per_output_unlock_times, loki_version_4_tx_types, loki_type_count]
    · have hty' : ¬ p.type % 65536 ≥ 3 := hty
      rcases Nat.lt_or_ge p.version 3 with h2 | h3
      · have h2' : ¬ p.version > 2 := by omega
        have h3' : ¬ p.version = 3 := by omega
        have h4' : ¬ p.version ≥ 4 := by omega
        have h5' : ¬ 3 ≤ p.version := by omega
        simp [ transaction_prefix.do_serialize, transaction_prefix.serialize_loki_head,
          transaction_prefix.serialize_loki_type, transaction_prefix.is_deregister_byte, hb,
          ht, hi, ho, he, hlen, hty, h2', h3', h4', h5', loki_version_2,
          loki_version_3_per_output_unlock_times, loki_version_4_tx_types, loki_type_count]
      · rcases Nat.eq_or_lt_of_le h3 with h3e | h4
        · have h3' : p.version = 3 := h3e.symm
          simp [ transaction_prefix.do_serialize, transaction_prefix.serialize_loki_head,
            transaction_prefix.serialize_loki_type, transaction_prefix.is_deregister_byte, hb,
            ht, hi, ho, he, hlen, hty, h3', loki_version_2,
            loki_version_3_per_output_unlock_times, loki_version_4_tx_types, loki_type_count]
        · have h2' : p.version > 2 := by omega
          have h3' : ¬ p.version = 3 := by omega
          have h4' : p.version ≥ 4 := h4
          have h5' : 3 ≤ p.version := by omega
          simp [ transaction_prefix.do_serialize, transaction_prefix.serialize_loki_head,
            transaction_prefix.serialize_loki_type, transaction_prefix.is_deregister_byte, hb,
            ht, hi, ho, he, hlen, hty, h2', h3', h4', h5', loki_version_2,
            loki_version_3_per_output_unlock_times, loki_version_4_tx_types, loki_type_count]
  · rcases Nat.lt_or_ge p.version 3 with h2 | h3
    · have h2' : ¬ p.version > 2 := by omega
      have h3' : ¬ p.version = 3 := by omega
      have h4' : ¬ p.version ≥ 4 := by omega
      have h5' : ¬ 3 ≤ p.version := by omega
      simp [ transaction_prefix.do_serialize, transaction_prefix.serialize_loki_head,
        transaction_prefix.serialize_loki_type, transaction_prefix.is_deregister_byte, hb,
        ht, hi, ho, he, hlen, h2', h3', h4', h5', loki_version_2,
        loki_version_3_per_output_unlock_times, loki_version_4_tx_types, loki_type_count]
    · have h2' : p.version > 2 := by omega
      by_cases h3' : p.version = 3
      · simp [ transaction_prefix.do_serialize, transaction_prefix.serialize_loki_head,
          transaction_prefix.is_deregister_byte, hb,
          ht, hi, ho, he, hlen, h3', loki_version_2,
          loki_version_3_per_output_unlock_times]
      · simp [ transaction_prefix.do_serialize, transaction_prefix.serialize_loki_head,
          transaction_prefix.is_deregister_byte, hb,
          ht, hi, ho, he, hlen, h2', h3', h3, loki_version_2,
          loki_version_3_per_output_unlock_times]

/-- C14, applied to Loki prefixes of the versions 2, 3 and 4 with one coinbase
input, no outputs and the type code 1. -/
theorem C14_loki_optional_fields_witness :
    ( loki_prefix_sample 2 1).do_serialize = some [2, 0, 1, 0xff, 172, 2, 0, 0] ∧
      ( loki_prefix_sample 3 1).do_serialize = some [3, 0, 1, 0, 1, 0xff, 172, 2, 0, 0] ∧
      ( loki_prefix_sample 4 1).do_serialize = some [4, 0, 0, 1, 0xff, 172, 2, 0, 0, 1] ∧
      ¬ (( loki_prefix_sample 3 1).version = 3 ∧ ( loki_prefix_sample 3 1).version ≥ 4) :=
  ⟨by decide, by decide, by decide,
    (C14_loki_optional_fields ( loki_prefix_sample 3 1) (by decide)).2⟩

/-- C15 (as stated, refuted): a transaction of version 2 without inputs is
written successfully although the RingCT base sub-codec reports failure for
it: with no inputs the sub-codec is not consulted. -/
theorem C15_no_inputs_no_delegation :
    ¬ ((sample_rct_tx 2 0 []).version = 1 ∧
        (sample_rct_tx 2 0 []).blob_type ≠ BLOB_TYPE_CRYPTONOTE2) ∧
      sample_externals_rct_fails.serialize_rctsig_base (sample_rct_tx 2 0 []).rct_signatures
          (sample_rct_tx 2 0 []).vin.length (sample_rct_tx 2 0 []).vout.length = none ∧
      ((sample_rct_tx 2 0 []).do_serialize sample_externals_rct_fails).isSome ∧
      (sample_rct_tx 2 0 []).serialize_signature_section sample_externals_rct_fails =
        some [] := by
  decide

/-- C15 (amended): the legacy section is written exactly when the version is 1
and the dialect does not force delegated signatures.  Otherwise, with at least
one input, the section starts with the RingCT base sub-codec called with the
numbers of inputs and outputs, and a failure of that sub-codec fails the
transaction; with no input, no sub-codec is called and the section is empty. -/
theorem C15_delegated_path (E : Externals) (t : transaction) :
    (t.version = 1 ∧ t.blob_type ≠ BLOB_TYPE_CRYPTONOTE2 →
        t.serialize_signature_section E = t.serialize_legacy_signatures) ∧
      (¬ (t.version = 1 ∧ t.blob_type ≠ BLOB_TYPE_CRYPTONOTE2) →
        t.serialize_signature_section E = t.serialize_rct_signatures E) ∧
      (¬ (t.version = 1 ∧ t.blob_type ≠ BLOB_TYPE_CRYPTONOTE2) → t.vin ≠ [] →
        t.serialize_signature_section E =
          (E.serialize_rctsig_base t.rct_signatures t.vin.length t.vout.length).bind
            (fun base =>
              if t.rct_signatures.type ≠ RCTTypeNull then
                (E.serialize_rctsig_prunable t.rct_signatures.p t.rct_signatures.type
                  t.vin.length t.vout.length t.mixin).map (fun prunable => base ++ prunable)
              else some base)) ∧
      (¬ (t.version = 1 ∧ t.blob_type ≠ BLOB_TYPE_CRYPTONOTE2) → t.vin ≠ [] →
        E.serialize_rctsig_base t.rct_signatures t.vin.length t.vout.length = none →
        t.do_serialize E = none) ∧
      (¬ (t.version = 1 ∧ t.blob_type ≠ BLOB_TYPE_CRYPTONOTE2) → t.vin = [] →
        t.serialize_signature_section E = some []) := by
  have hrct : ¬ (t.version = 1 ∧ t.blob_type ≠ BLOB_TYPE_CRYPTONOTE2) →
      t.serialize_signature_section E = t.serialize_rct_signatures E := by
    intro h
    unfold transaction.serialize_signature_section
    rw [if_neg h]
  refine ⟨?_, hrct, ?_, ?_, ?_⟩
  · intro h
    unfold transaction.serialize_signature_section
    rw [if_pos h]
  · intro h hvin
    rw [hrct h, serialize_rct_signatures_of_inputs E t hvin]
  · intro h hvin hbase
    apply transaction_do_serialize_none_of_section
    rw [hrct h, serialize_rct_signatures_of_inputs E t hvin, hbase]
    rfl
  · intro h hvin
    rw [hrct h]
    simp [transaction.serialize_rct_signatures, hvin]

/-- C15 (amended), applied to a transaction of version 2 with one key input
and to a base sub-codec that reports failure. -/
theorem C15_delegated_path_witness :
    (sample_rct_tx 2 0 [sample_key_input]).do_serialize sample_externals_rct_fails = none :=
  (C15_delegated_path sample_externals_rct_fails (sample_rct_tx 2 0 [sample_key_input])).2.2.2.1
    (by decide) (by decide) (by decide)

/-- C16: on the delegated path with at least one input and a non-null
signature type, the prunable sub-codec is called with the mixin
`key_offsets.size() - 1` (computed in `size_t`) when the first input is a key
input, and with 0 when the first input is of another kind, whatever the later
inputs are; with the null signature type the prunable sub-codec is not
called. -/
theorem C16_prunable_mixin (E : Externals) (t : transaction)
    (hpath : ¬ (t.version = 1 ∧ t.blob_type ≠ BLOB_TYPE_CRYPTONOTE2)) (hvin : t.vin ≠ []) :
    (t.rct_signatures.type ≠ RCTTypeNull →
        t.serialize_signature_section E =
          (E.serialize_rctsig_base t.rct_signatures t.vin.length t.vout.length).bind
            (fun base =>
              (E.serialize_rctsig_prunable t.rct_signatures.p t.rct_signatures.type
                t.vin.length t.vout.length t.mixin).map (fun prunable => base ++ prunable))) ∧
      (∀ (x : txin_to_key) (rest : List txin_v), t.vin = .to_key x :: rest →
        (t.mixin : Int) = ((x.key_offsets.length : Int) - 1) % 2 ^ 64) ∧
      (∀ (x : txin_to_key) (rest : List txin_v), t.vin = .to_key x :: rest →
        1 ≤ x.key_offsets.length → x.key_offsets.length < 2 ^ 64 →
        t.mixin = x.key_offsets.length - 1) ∧
      (∀ (first : txin_v) (rest : List txin_v), t.vin = first :: rest →
        (∀ x : txin_to_key, first ≠ .to_key x) → t.mixin = 0) ∧
      (t.rct_signatures.type = RCTTypeNull →
        t.serialize_signature_section E =
          E.serialize_rctsig_base t.rct_signatures t.vin.length t.vout.length) := by
  have hsec : t.serialize_signature_section E = t.serialize_rct_signatures E := by
    unfold transaction.serialize_signature_section
    rw [if_neg hpath]
  refine ⟨?_, ?_, ?_, ?_, ?_⟩
  · intro hnull
    rw [hsec, serialize_rct_signatures_of_inputs E t hvin]
    simp [hnull]
  · intro x rest hx
    simp only [transaction.mixin, hx, List.head?_cons]
    norm_num
    omega
  · intro x rest hx h1 h2
    simp only [transaction.mixin, hx, List.head?_cons]
    norm_num at h2 ⊢
    omega
  · intro first rest hx hfirst
    cases first with
    | gen y => simp [transaction.mixin, hx]
    | to_script y => simp [transaction.mixin, hx]
    | to_scripthash y => simp [transaction.mixin, hx]
    | to_key y => exact absurd rfl (hfirst y)
  · intro hnull
    rw [hsec, serialize_rct_signatures_of_inputs E t hvin]
    cases E.serialize_rctsig_base t.rct_signatures t.vin.length t.vout.length <;>
      simp [hnull]

/-- C16, applied to a transaction of version 2 whose first input is a coinbase
input and whose second input is a key input with two key offsets. -/
theorem C16_prunable_mixin_witness :
    (sample_rct_tx 2 1 [.gen ⟨300⟩, sample_key_input]).mixin = 0 :=
  (C16_prunable_mixin sample_externals (sample_rct_tx 2 1 [.gen ⟨300⟩, sample_key_input])
    (by decide) (by decide)).2.2.2.1 (.gen ⟨300⟩) [sample_key_input] rfl
    (fun _ h => txin_v.noConfusion h)

/-- C20: on the delegated path with a non-null signature type, when the first
input is a key input without key offsets the prunable sub-codec is called with
the mixin 2^64 - 1, the `size_t` value of `0 - 1`; when it has key offsets the
mixin is their number less one. -/
theorem C20_mixin_wraps (E : Externals) (t : transaction) (x : txin_to_key)
    (rest : List txin_v) (hpath : ¬ (t.version = 1 ∧ t.blob_type ≠ BLOB_TYPE_CRYPTONOTE2))
    (hvin : t.vin = .to_key x :: rest) (hnull : t.rct_signatures.type ≠ RCTTypeNull) :
    (x.key_offsets = [] →
        t.mixin = 2 ^ 64 - 1 ∧ t.mixin ≠ 0 ∧
          t.serialize_signature_section E =
            (E.serialize_rctsig_base t.rct_signatures t.vin.length t.vout.length).bind
              (fun base =>
                (E.serialize_rctsig_prunable t.rct_signatures.p t.rct_signatures.type
                  t.vin.length t.vout.length (2 ^ 64 - 1)).map
                  (fun prunable => base ++ prunable))) ∧
      (x.key_offsets ≠ [] → x.key_offsets.length < 2 ^ 64 →
        t.mixin = x.key_offsets.length - 1 ∧
          t.serialize_signature_section E =
            (E.serialize_rctsig_base t.rct_signatures t.vin.length t.vout.length).bind
              (fun base =>
                (E.serialize_rctsig_prunable t.rct_signatures.p t.rct_signatures.type
                  t.vin.length t.vout.length (x.key_offsets.length - 1)).map
                  (fun prunable => base ++ prunable))) := by
  have hne : t.vin ≠ [] := by rw [hvin]; simp
  have hsec : t.serialize_signature_section E =
      (E.serialize_rctsig_base t.rct_signatures t.vin.length t.vout.length).bind
        (fun base =>
          (E.serialize_rctsig_prunable t.rct_signatures.p t.rct_signatures.type
            t.vin.length t.vout.length t.mixin).map (fun prunable => base ++ prunable)) := by
    unfold transaction.serialize_signature_section
    rw [if_neg hpath, serialize_rct_signatures_of_inputs E t hne]
    simp [hnull]
  constructor
  · intro hempty
    have hm : t.mixin = 2 ^ 64 - 1 := by
      simp [transaction.mixin, hvin, hempty]
    refine ⟨hm, ?_, ?_⟩
    · rw [hm]; norm_num
    · rw [hsec, hm]
  · intro hnonempty hlt
    have hpos : 1 ≤ x.key_offsets.length := by
      cases hk : x.key_offsets with
      | nil => exact absurd hk hnonempty
      | cons a l => simp
    have hm : t.mixin = x.key_offsets.length - 1 := by
      simp only [transaction.mixin, hvin, List.head?_cons]
      norm_num at hlt ⊢
      omega
    exact ⟨hm, by rw [hsec, hm]⟩

/-- C20, applied to a transaction of version 2 with the signature type 1 whose
only input is a key input without key offsets. -/
theorem C20_mixin_wraps_witness :
    (sample_rct_tx 2 1 [sample_key_input_empty]).mixin = 18446744073709551615 :=
  ((C20_mixin_wraps sample_externals (sample_rct_tx 2 1 [sample_key_input_empty])
    ⟨5, [], List.replicate 32 7⟩ [] (by decide) rfl (by decide)).1 rfl).1

/-! ## Variants: tags and reading back -/

/-- C11: in the binary format every input variant and every output-target
variant whose fields fit their C++ types is written successfully, and reading
the bytes written, followed by anything, returns the same value and leaves
exactly what followed. -/
theorem C11_variant_roundtrip :
    (∀ (x : txin_v) (rest : Bytes), x.wf →
        ∃ bs, x.do_serialize = some bs ∧
          txin_v.do_deserialize (bs ++ rest) = some (x, rest)) ∧
      (∀ (x : txout_target_v) (rest : Bytes), x.wf →
        ∃ bs, x.do_serialize = some bs ∧
          txout_target_v.do_deserialize (bs ++ rest) = some (x, rest)) := by
  constructor
  · intro x rest hx
    obtain ⟨bs, hbs⟩ := txin_v_some x
    exact ⟨bs, hbs, txin_v_roundtrip x bs rest hx hbs⟩
  · intro x rest hx
    cases hbs : x.do_serialize with
    | none =>
      cases x with
      | to_script y =>
        obtain ⟨k, hk⟩ := txout_to_script_some y
        simp [txout_target_v.do_serialize, hk] at hbs
      | to_scripthash y => simp [txout_target_v.do_serialize] at hbs
      | to_key y => simp [txout_target_v.do_serialize] at hbs
    | some bs => exact ⟨bs, rfl, txout_target_v_roundtrip x bs rest hx hbs⟩

/-- C11, applied to a script-hash input and to a key target. -/
theorem C11_variant_roundtrip_witness :
    (∃ bs, sample_scripthash_input.do_serialize = some bs ∧
        txin_v.do_deserialize (bs ++ [1, 2]) = some (sample_scripthash_input, [1, 2])) ∧
      (∃ bs, (txout_target_v.to_key ⟨List.replicate 32 9⟩).do_serialize = some bs ∧
        txout_target_v.do_deserialize (bs ++ []) =
          some (txout_target_v.to_key ⟨List.replicate 32 9⟩, [])) :=
  ⟨C11_variant_roundtrip.1 sample_scripthash_input [1, 2] (by decide),
    C11_variant_roundtrip.2 (.to_key ⟨List.replicate 32 9⟩) [] (by decide)⟩

/-- C12: a key input is written as the tag byte 0x02, the varint of the
amount, the varint of the number of key offsets, the varint of each key offset
in order, and the raw key image; for the amount 5 and the key offsets 1, 2, 3
the bytes are 02 05 03 01 02 03 followed by the key image, and reading them
returns the same key input. -/
theorem C12_key_input_layout :
    (∀ (amount : Nat) (key_offsets : List Nat) (k_image : key_image),
        txin_v.do_serialize (.to_key ⟨amount, key_offsets, k_image⟩) =
          some (0x02 :: (serialize_varint amount ++
            (serialize_varint key_offsets.length ++ key_offsets.flatMap serialize_varint) ++
            k_image))) ∧
      (∀ k_image : key_image,
        txin_v.do_serialize (.to_key ⟨5, [1, 2, 3], k_image⟩) =
          some ([0x02, 0x05, 0x03, 0x01, 0x02, 0x03] ++ k_image)) ∧
      (∀ (k_image : key_image) (rest : Bytes), k_image.length = 32 →
        txin_v.do_deserialize ([0x02, 0x05, 0x03, 0x01, 0x02, 0x03] ++ k_image ++ rest) =
          some (.to_key ⟨5, [1, 2, 3], k_image⟩, rest)) ∧
      (∀ (x : txin_to_key) (bs rest : Bytes), (txin_v.to_key x).wf →
        txin_v.do_serialize (.to_key x) = some bs →
        txin_v.do_deserialize (bs ++ rest) = some (.to_key x, rest)) := by
  have hlayout : ∀ (amount : Nat) (key_offsets : List Nat) (k_image : key_image),
      txin_v.do_serialize (.to_key ⟨amount, key_offsets, k_image⟩) =
        some (0x02 :: (serialize_varint amount ++
          (serialize_varint key_offsets.length ++ key_offsets.flatMap serialize_varint) ++
          k_image)) := by
    intro amount key_offsets k_image
    simp [txin_v.do_serialize, txin_to_key.do_serialize, serialize_vector,
      serialize_elements_varint, serialize_blob]
  have hfive : ∀ k_image : key_image,
      txin_v.do_serialize (.to_key ⟨5, [1, 2, 3], k_image⟩) =
        some ([0x02, 0x05, 0x03, 0x01, 0x02, 0x03] ++ k_image) := by
    intro k_image
    rw [hlayout]
    rfl
  refine ⟨hlayout, hfive, ?_, ?_⟩
  · intro k_image rest hk
    exact txin_v_roundtrip (.to_key ⟨5, [1, 2, 3], k_image⟩) _ rest
      ⟨by norm_num, (by decide : wf_u64_vector [1, 2, 3]), hk⟩ (hfive k_image)
  · intro x bs rest hx hbs
    exact txin_v_roundtrip (.to_key x) bs rest hx hbs

/-- C12, applied to the key image 07..07. -/
theorem C12_key_input_layout_witness :
    txin_v.do_deserialize
        ([0x02, 0x05, 0x03, 0x01, 0x02, 0x03] ++ List.replicate 32 7 ++ [0xaa]) =
      some (.to_key ⟨5, [1, 2, 3], List.replicate 32 7⟩, [0xaa]) :=
  C12_key_input_layout.2.2.1 (List.replicate 32 7) [0xaa] (by decide)

/-- C13: the binary tags are 0xff, 0x00, 0x01, 0x02 for the four inputs and
0x00, 0x01, 0x02 for the three output targets, the textual tags are gen,
script, scripthash and key; each writer starts with the binary tag of the
active alternative; within each variant two alternatives with the same tag
are the same alternative, in every format; the binary reader returns only the
alternative whose tag it read and rejects every tag outside the table. -/
theorem C13_tag_tables :
    ((∀ x, txin_v.binary_tag (.gen x) = 0xff) ∧ (∀ x, txin_v.binary_tag (.to_script x) = 0x00) ∧
        (∀ x, txin_v.binary_tag (.to_scripthash x) = 0x01) ∧
        (∀ x, txin_v.binary_tag (.to_key x) = 0x02) ∧
        (∀ x, txout_target_v.binary_tag (.to_script x) = 0x00) ∧
        (∀ x, txout_target_v.binary_tag (.to_scripthash x) = 0x01) ∧
        (∀ x, txout_target_v.binary_tag (.to_key x) = 0x02)) ∧
      ((∀ x, txin_v.json_tag (.gen x) = "gen" ∧ txin_v.debug_tag (.gen x) = "gen") ∧
        (∀ x, txin_v.json_tag (.to_script x) = "script" ∧
          txin_v.debug_tag (.to_script x) = "script") ∧
        (∀ x, txin_v.json_tag (.to_scripthash x) = "scripthash" ∧
          txin_v.debug_tag (.to_scripthash x) = "scripthash") ∧
        (∀ x, txin_v.json_tag (.to_key x) = "key" ∧ txin_v.debug_tag (.to_key x) = "key") ∧
        (∀ x, txout_target_v.json_tag (.to_script x) = "script" ∧
          txout_target_v.debug_tag (.to_script x) = "script") ∧
        (∀ x, txout_target_v.json_tag (.to_scripthash x) = "scripthash" ∧
          txout_target_v.debug_tag (.to_scripthash x) = "scripthash") ∧
        (∀ x, txout_target_v.json_tag (.to_key x) = "key" ∧
          txout_target_v.debug_tag (.to_key x) = "key")) ∧
      ((∀ (x : txin_v) (bs : Bytes), x.do_serialize = some bs →
          bs.head? = some x.binary_tag) ∧
        (∀ (x : txout_target_v) (bs : Bytes), x.do_serialize = some bs →
          bs.head? = some x.binary_tag)) ∧
      ((∀ x y : txin_v, x.binary_tag = y.binary_tag → x.which = y.which) ∧
        (∀ x y : txin_v, x.json_tag = y.json_tag → x.which = y.which) ∧
        (∀ x y : txin_v, x.debug_tag = y.debug_tag → x.which = y.which) ∧
        (∀ x y : txout_target_v, x.binary_tag = y.binary_tag → x.which = y.which) ∧
        (∀ x y : txout_target_v, x.json_tag = y.json_tag → x.which = y.which) ∧
        (∀ x y : txout_target_v, x.debug_tag = y.debug_tag → x.which = y.which)) ∧
      ((∀ (tag : Nat) (input rest : Bytes) (x : txin_v),
          txin_v.do_deserialize (tag :: input) = some (x, rest) → x.binary_tag = tag) ∧
        (∀ (tag : Nat) (input rest : Bytes) (x : txout_target_v),
          txout_target_v.do_deserialize (tag :: input) = some (x, rest) →
            x.binary_tag = tag)) ∧
      ((∀ (tag : Nat) (input : Bytes), tag ∉ [0xff, 0x00, 0x01, 0x02] →
          txin_v.do_deserialize (tag :: input) = none) ∧
        (∀ (tag : Nat) (input : Bytes), tag ∉ [0x00, 0x01, 0x02] →
          txout_target_v.do_deserialize (tag :: input) = none)) := by
  refine ⟨⟨fun _ => rfl, fun _ => rfl, fun _ => rfl, fun _ => rfl, fun _ => rfl, fun _ => rfl,
    fun _ => rfl⟩, ⟨fun _ => ⟨rfl, rfl⟩, fun _ => ⟨rfl, rfl⟩, fun _ => ⟨rfl, rfl⟩,
    fun _ => ⟨rfl, rfl⟩, fun _ => ⟨rfl, rfl⟩, fun _ => ⟨rfl, rfl⟩, fun _ => ⟨rfl, rfl⟩⟩,
    ⟨?_, ?_⟩, ⟨?_, ?_, ?_, ?_, ?_, ?_⟩, ⟨?_, ?_⟩, ⟨?_, ?_⟩⟩
  · intro x bs h
    cases x <;> simp only [txin_v.do_serialize, Option.map_eq_some'] at h <;>
      obtain ⟨body, _, hb⟩ := h <;> subst hb <;> rfl
  · intro x bs h
    cases x with
    | to_script y =>
      simp only [txout_target_v.do_serialize, Option.map_eq_some'] at h
      obtain ⟨body, _, hb⟩ := h
      subst hb
      rfl
    | to_scripthash y =>
      simp only [txout_target_v.do_serialize, Option.some.injEq] at h
      subst h
      rfl
    | to_key y =>
      simp only [txout_target_v.do_serialize, Option.some.injEq] at h
      subst h
      rfl
  · intro x y h
    cases x <;> cases y <;> simp [txin_v.binary_tag, txin_v.which] at h ⊢
  · intro x y h
    cases x <;> cases y <;> simp [txin_v.json_tag, txin_v.which] at h ⊢
  · intro x y h
    cases x <;> cases y <;> simp [txin_v.debug_tag, txin_v.which] at h ⊢
  · intro x y h
    cases x <;> cases y <;> simp [txout_target_v.binary_tag, txout_target_v.which] at h ⊢
  · intro x y h
    cases x <;> cases y <;> simp [txout_target_v.json_tag, txout_target_v.which] at h ⊢
  · intro x y h
    cases x <;> cases y <;> simp [txout_target_v.debug_tag, txout_target_v.which] at h ⊢
  · intro tag input rest x h
    simp only [txin_v.do_deserialize] at h
    split_ifs at h with h1 h2 h3 h4 <;>
      simp only [Option.map_eq_some', Prod.mk.injEq] at h <;>
      obtain ⟨r, _, hx, _⟩ := h <;> subst hx <;> simp [txin_v.binary_tag, *]
  · intro tag input rest x h
    simp only [txout_target_v.do_deserialize] at h
    split_ifs at h with h1 h2 h3 <;>
      simp only [Option.map_eq_some', Prod.mk.injEq] at h <;>
      obtain ⟨r, _, hx, _⟩ := h <;> subst hx <;> simp [txout_target_v.binary_tag, *]
  · intro tag input htag
    simp only [List.mem_cons, List.mem_singleton, List.not_mem_nil, or_false, not_or] at htag
    simp [txin_v.do_deserialize, htag.1, htag.2.1, htag.2.2.1, htag.2.2.2]
  · intro tag input htag
    simp only [List.mem_cons, List.mem_singleton, List.not_mem_nil, or_false, not_or] at htag
    simp [txout_target_v.do_deserialize, htag.1, htag.2.1, htag.2.2]

/-- C13, applied to the tag byte 0x03, which no input and no output target
carries. -/
theorem C13_tag_tables_witness :
    txin_v.do_deserialize (0x03 :: List.replicate 40 0) = none ∧
      txout_target_v.do_deserialize (0x03 :: List.replicate 40 0) = none :=
  ⟨C13_tag_tables.2.2.2.2.2.1 0x03 (List.replicate 40 0) (by decide),
    C13_tag_tables.2.2.2.2.2.2 0x03 (List.replicate 40 0) (by decide)⟩

/-! ## Reading a plain-dialect block back -/

/-- C17: a plain-dialect block whose fields fit their types, with a coinbase
transaction of version 1 that has one coinbase input and no legacy signatures,
and with no further transaction hashes, that is written to the bytes `s` is
read back from `s` completely, and writing the block that was read gives `s`
again, although its signature list holds one empty slot instead of being
empty. -/
theorem C17_plain_block_roundtrip (E : Externals) (R : ReadExternals) (b b0 : block)
    (x : txin_gen) (s : Bytes)
    (hb : b.blob_type = BLOB_TYPE_CRYPTONOTE)
    (htb : b.miner_tx.blob_type = BLOB_TYPE_CRYPTONOTE)
    (hv : b.miner_tx.version = 1) (hvin : b.miner_tx.vin = [.gen x])
    (hsig : b.miner_tx.signatures = []) (hhashes : b.tx_hashes = [])
    (hwf : b.toblock_header.wf) (hwft : b.miner_tx.totransaction_prefix.wf)
    (hb0 : b0.blob_type = BLOB_TYPE_CRYPTONOTE)
    (htb0 : b0.miner_tx.blob_type = BLOB_TYPE_CRYPTONOTE)
    (hs : b.do_serialize E = some s) :
    ∃ b2 : block,
      block.do_deserialize E R b0 s = some (b2, []) ∧
        b2.do_serialize E = some s ∧
        b2.miner_tx.signatures = [[]] ∧
        b2.miner_tx.signatures ≠ b.miner_tx.signatures ∧
        b2.toblock_header = b.toblock_header ∧
        b2.miner_tx.version = b.miner_tx.version ∧
        b2.miner_tx.unlock_time = b.miner_tx.unlock_time ∧
        b2.miner_tx.vin = b.miner_tx.vin ∧
        b2.miner_tx.vout = b.miner_tx.vout ∧
        b2.miner_tx.extra = b.miner_tx.extra ∧
        b2.tx_hashes = b.tx_hashes := by
  have hfn2 : b.blob_type ≠ BLOB_TYPE_FORKNOTE2 := by rw [hb]; decide
  have hloki : b.miner_tx.blob_type ≠ BLOB_TYPE_CRYPTONOTE_LOKI := by rw [htb]; decide
  -- the bytes written
  cases hhdr : b.toblock_header.do_serialize with
  | none => simp [block.do_serialize, hhdr] at hs
  | some hbs =>
    cases htx : b.miner_tx.do_serialize E with
    | none =>
      simp [block.do_serialize, block.serialize_parent_block, hhdr, htx, hfn2] at hs
    | some tbs =>
      have hvec : serialize_vector serialize_element_blob ([] : List hash) = some [0] := by
        decide
      simp [block.do_serialize, block.serialize_parent_block, hhdr, htx, hfn2, hhashes,
        hvec] at hs
      subst hs
      -- reading them
      have r1 := block_header_roundtrip b.toblock_header b0.toblock_header hbs (tbs ++ [0])
        hfn2 (by rw [hb0, hb]) hwf hhdr
      have r2 := transaction_roundtrip_coinbase E R b.miner_tx b0.miner_tx x tbs [0] hv htb
        hvin hsig htb0 hwft htx
      have r3 : read_vector (read_blob 32) [0] = some (([] : List hash), []) := by decide
      -- writing the transaction that was read
      have hkey : ∀ t2 : transaction,
          t2.totransaction_prefix =
              { b.miner_tx.totransaction_prefix with
                output_unlock_times := b0.miner_tx.output_unlock_times,
                type := b0.miner_tx.type } →
            t2.signatures = [[]] → t2.do_serialize E = some tbs := by
        intro t2 hp2 hs2
        have hv2 : t2.version = 1 := by rw [hp2]; exact hv
        have hb2 : t2.blob_type = BLOB_TYPE_CRYPTONOTE := by rw [hp2]; exact htb
        have hvin2 : t2.vin = [.gen x] := by rw [hp2]; exact hvin
        rw [transaction_do_serialize_coinbase E t2 x hv2 hb2 hvin2 (Or.inr hs2), hp2]
        rw [transaction_do_serialize_coinbase E b.miner_tx x hv htb hvin (Or.inl hsig)] at htx
        rw [← htx]
        exact transaction_prefix_do_serialize_ignores_loki b.miner_tx.totransaction_prefix
          hloki _ _
      have htx2 := hkey
        { totransaction_prefix :=
            { b.miner_tx.totransaction_prefix with
              output_unlock_times := b0.miner_tx.output_unlock_times,
              type := b0.miner_tx.type },
          signatures := [[]], rct_signatures := b0.miner_tx.rct_signatures } rfl rfl
      refine ⟨{ toblock_header := b.toblock_header, parent_block := b0.parent_block,
                miner_tx :=
                  { totransaction_prefix :=
                      { b.miner_tx.totransaction_prefix with
                        output_unlock_times := b0.miner_tx.output_unlock_times,
                        type := b0.miner_tx.type },
                    signatures := [[]], rct_signatures := b0.miner_tx.rct_signatures },
                tx_hashes := [] }, ?_, ?_, rfl, ?_, rfl, rfl, rfl, rfl, rfl, rfl, hhashes.symm⟩
      · simp [block.do_deserialize, List.append_assoc, r1, r2, r3, hfn2]
      · simp [block.do_serialize, block.serialize_parent_block, hhdr, htx2, hfn2, hvec]
      · rw [hsig]
        simp

/-- C17, applied to a block with the timestamp 1000, the nonce 66000 and one
coinbase transaction, read into an empty block. -/
theorem C17_plain_block_roundtrip_witness :
    ∃ b2 : block,
      block.do_deserialize sample_externals sample_read_externals empty_plain_block
          [2, 1, 232, 7, 4, 4, 4, 4, 4, 4, 4, 4, 4, 4, 4, 4, 4, 4, 4, 4, 4, 4, 4, 4, 4, 4, 4, 4,
            4, 4, 4, 4, 4, 4, 4, 4, 208, 1, 1, 0, 1, 0, 1, 255, 172, 2, 1, 7, 2, 9, 9, 9, 9, 9,
            9, 9, 9, 9, 9, 9, 9, 9, 9, 9, 9, 9, 9, 9, 9, 9, 9, 9, 9, 9, 9, 9, 9, 9, 9, 9, 9, 2,
            3, 0, 0] = some (b2, []) ∧
        b2.do_serialize sample_externals =
          some [2, 1, 232, 7, 4, 4, 4, 4, 4, 4, 4, 4, 4, 4, 4, 4, 4, 4, 4, 4, 4, 4, 4, 4, 4, 4,
            4, 4, 4, 4, 4, 4, 4, 4, 4, 4, 208, 1, 1, 0, 1, 0, 1, 255, 172, 2, 1, 7, 2, 9, 9, 9,
            9, 9, 9, 9, 9, 9, 9, 9, 9, 9, 9, 9, 9, 9, 9, 9, 9, 9, 9, 9, 9, 9, 9, 9, 9, 9, 9, 9,
            9, 2, 3, 0, 0] ∧
        b2.miner_tx.signatures = [[]] := by
  obtain ⟨b2, h1, h2, h3, _⟩ :=
    C17_plain_block_roundtrip sample_externals sample_read_externals sample_plain_block
      empty_plain_block ⟨300⟩ _ (by decide) (by decide) (by decide) (by decide) (by decide)
      (by decide) (by decide) (by decide) (by decide) (by decide)
      (show sample_plain_block.do_serialize sample_externals =
        some [2, 1, 232, 7, 4, 4, 4, 4, 4, 4, 4, 4, 4, 4, 4, 4, 4, 4, 4, 4, 4, 4, 4, 4, 4, 4,
          4, 4, 4, 4, 4, 4, 4, 4, 4, 4, 208, 1, 1, 0, 1, 0, 1, 255, 172, 2, 1, 7, 2, 9, 9, 9,
          9, 9, 9, 9, 9, 9, 9, 9, 9, 9, 9, 9, 9, 9, 9, 9, 9, 9, 9, 9, 9, 9, 9, 9, 9, 9, 9, 9,
          9, 2, 3, 0, 0] by decide)
  exact ⟨b2, h1, h2, h3⟩

end cryptonote
